import Mathlib

/-!
# The segment wire codec and ordered segment collections of `segment.go`

A shallow embedding of package `atp`, file `segment.go`.

* Bytes and `uint32` values are natural numbers (`< 256`, `< 2 ^ 32`); conversions that
  truncate in Go (`byte(x)`) are written `% 256`.
* A Go byte slice is a `ByteSlice`: the elements below its length and the elements of its
  backing array between length and capacity. Index expressions are checked against the
  length, slice expressions `b[lo:hi]` against the capacity, as in Go.
* The slices stored in a `segment` (`sequenceNumber`, `windowSize`, `data`) alias the
  segment's buffer. They are modelled as index ranges (`span`) into the buffer's backing
  array, so a write to the buffer is seen through every field; `none` is the nil slice.
* A run-time panic of the Go code (index or slice bounds out of range) is the result `none`.
* A `[]*segment` is a `List segment`; the absent result `nil` of a lookup is `none`.
-/

namespace atp

/-! ## Constants -/

/-- Modelled from the spec: the type `position` is declared outside `segment.go`, which only
uses it as `position{Start, End}`; it is the half-open byte range `[Start, End)` of a header
field (the offset/size table of the wire format). -/
structure position where
  Start : Nat
  End : Nat
deriving DecidableEq, Repr

def flagACK : Nat := 1
def flagSYN : Nat := 2
def flagRTO : Nat := 8

def defaultRetransmitThresh : Nat := 3

def dataOffsetPosition : position := ⟨0, 1⟩
def flagPosition : position := ⟨1, 2⟩
def sequenceNumberPosition : position := ⟨2, 6⟩
def windowSizePosition : position := ⟨6, 10⟩

/-! ## Go byte slices -/

/-- A Go `[]byte`: `bytes` are the elements `b[0] .. b[len(b)-1]`, `spare` the elements of the
backing array from `len(b)` up to `cap(b)`. -/
structure ByteSlice where
  bytes : List Nat
  spare : List Nat
deriving DecidableEq, Repr

/-- A slice of the buffer's backing array, `buffer[lo:hi]`, kept as its bounds. -/
structure span where
  lo : Nat
  hi : Nat
deriving DecidableEq, Repr

namespace ByteSlice

/-- The Go builtin `len(b)`. -/
def len (b : ByteSlice) : Nat := b.bytes.length

/-- The Go builtin `cap(b)`. -/
def cap (b : ByteSlice) : Nat := b.bytes.length + b.spare.length

/-- The backing array seen from the first element of the slice. -/
def arr (b : ByteSlice) : List Nat := b.bytes ++ b.spare

/-- The index expression `b[i]` as a value: panics unless `i < len(b)`. -/
def index (b : ByteSlice) (i : Nat) : Option Nat := b.bytes[i]?

/-- The assignment `b[i] = v`: panics unless `i < len(b)`. -/
def store (b : ByteSlice) (i v : Nat) : Option ByteSlice :=
  if i < b.len then some { b with bytes := b.bytes.set i v } else none

/-- A write to element `i` of the backing array, through a slice whose bounds were checked
when it was taken. -/
def poke (b : ByteSlice) (i v : Nat) : ByteSlice :=
  if i < b.bytes.length then { b with bytes := b.bytes.set i v }
  else { b with spare := b.spare.set (i - b.bytes.length) v }

/-- The slice expression `b[lo:hi]`: panics unless `lo ≤ hi ≤ cap(b)`. -/
def slice (b : ByteSlice) (lo hi : Nat) : Option span :=
  if lo ≤ hi ∧ hi ≤ b.cap then some ⟨lo, hi⟩ else none

/-- The slice expression `b[lo:]`: panics unless `lo ≤ len(b)`. -/
def sliceFrom (b : ByteSlice) (lo : Nat) : Option span :=
  if lo ≤ b.len then some ⟨lo, b.len⟩ else none

/-- The elements seen through a slice of the buffer; the nil slice has none. -/
def view (b : ByteSlice) (v : Option span) : List Nat :=
  match v with
  | none => []
  | some s => (b.arr.drop s.lo).take (s.hi - s.lo)

/-- The builtin `copy(b[s], src)`: copies `min(len(b[s]), len(src))` elements, never panics. -/
def copyInto (b : ByteSlice) (s : span) : List Nat → ByteSlice
  | [] => b
  | x :: src => if s.lo < s.hi then copyInto (b.poke s.lo x) ⟨s.lo + 1, s.hi⟩ src else b

end ByteSlice

/-- The builtin `make([]byte, n)`: `n` zero bytes, capacity `n`. -/
def make (n : Nat) : ByteSlice := ⟨List.replicate n 0, []⟩

/-- The library call `binary.BigEndian.Uint32(b)`: panics unless `len(b) ≥ 4`, then
`uint32(b[3]) | uint32(b[2])<<8 | uint32(b[1])<<16 | uint32(b[0])<<24`. -/
def bigEndianUint32 : List Nat → Option Nat
  | b0 :: b1 :: b2 :: b3 :: _ => some (b3 ||| b2 <<< 8 ||| b1 <<< 16 ||| b0 <<< 24)
  | _ => none

/-- The library call `binary.BigEndian.PutUint32(b[s], v)`: panics unless the slice has 4
elements, then stores `byte(v>>24)`, `byte(v>>16)`, `byte(v>>8)`, `byte(v)`. -/
def bigEndianPutUint32 (b : ByteSlice) (s : span) (v : Nat) : Option ByteSlice :=
  if s.lo + 4 ≤ s.hi then
    some ((((b.poke s.lo (v >>> 24 % 256)).poke (s.lo + 1) (v >>> 16 % 256)).poke
      (s.lo + 2) (v >>> 8 % 256)).poke (s.lo + 3) (v % 256))
  else none

/-! ## The codec -/

def bytesToUint32 (buffer : List Nat) : Option Nat :=
  bigEndianUint32 buffer

/-- The source allocates `make([]byte, 4)` and fills it with `PutUint32`; the result is the
four bytes written. -/
def uint32ToBytes (data : Nat) : List Nat :=
  [data >>> 24 % 256, data >>> 16 % 256, data >>> 8 % 256, data % 256]

def isFlaggedAs (input flag : Nat) : Bool :=
  input &&& flag == flag

/-- The struct `segment`. The three slice fields alias `buffer`; `timestamp` is a `time.Time`,
which no function of the file writes (`0` is its zero value). -/
structure segment where
  buffer : ByteSlice
  sequenceNumber : Option span
  windowSize : Option span
  data : Option span
  timestamp : Nat
  retransmitThresh : Nat
deriving DecidableEq, Repr

namespace segment

def getDataOffset (seg : segment) : Option Nat :=
  seg.buffer.index dataOffsetPosition.Start

def getHeaderSize (seg : segment) : Option Nat :=
  seg.getDataOffset

def getFlags (seg : segment) : Option Nat :=
  seg.buffer.index flagPosition.Start

def setFlags (seg : segment) (flags : Nat) : Option segment :=
  (seg.buffer.store flagPosition.Start flags).map fun b => { seg with buffer := b }

def addFlag (seg : segment) (flag : Nat) : Option segment :=
  seg.getFlags.bind fun old => seg.setFlags (old ||| flag)

def isFlaggedAs (seg : segment) (flag : Nat) : Option Bool :=
  seg.getFlags.map fun f => atp.isFlaggedAs f flag

def getSequenceNumber (seg : segment) : Option Nat :=
  bytesToUint32 (seg.buffer.view seg.sequenceNumber)

def getWindowSize (seg : segment) : Option Nat :=
  bytesToUint32 (seg.buffer.view seg.windowSize)

def setWindowSize (seg : segment) (windowSize : Nat) : Option segment :=
  (seg.buffer.slice windowSizePosition.Start windowSizePosition.End).bind fun s =>
    (bigEndianPutUint32 seg.buffer s windowSize).map fun b =>
      { seg with windowSize := some s, buffer := b }

/-- The payload bytes, `seg.data` read as a byte sequence. -/
def payload (seg : segment) : List Nat :=
  seg.buffer.view seg.data

end segment

def setDataOffset (buffer : ByteSlice) (dataOffset : Nat) : Option ByteSlice :=
  buffer.store dataOffsetPosition.Start dataOffset

def setFlags (buffer : ByteSlice) (flags : Nat) : Option ByteSlice :=
  buffer.store flagPosition.Start flags

def setSequenceNumber (buffer : ByteSlice) (sequenceNumber : Nat) : Option ByteSlice :=
  (buffer.slice sequenceNumberPosition.Start sequenceNumberPosition.End).bind fun s =>
    bigEndianPutUint32 buffer s sequenceNumber

def createSegment (buffer : ByteSlice) : Option segment :=
  (buffer.index dataOffsetPosition.Start).bind fun dataOffset =>
  (buffer.index flagPosition.Start).bind fun flag =>
  (buffer.slice sequenceNumberPosition.Start sequenceNumberPosition.End).bind fun sn =>
  (buffer.sliceFrom dataOffset).bind fun d =>
    let seg : segment :=
      { buffer := buffer
        sequenceNumber := some sn
        windowSize := none
        data := some d
        timestamp := 0
        retransmitThresh := defaultRetransmitThresh }
    if isFlaggedAs flag flagACK then
      (buffer.slice windowSizePosition.Start windowSizePosition.End).map fun w =>
        { seg with windowSize := some w }
    else some seg

def getDataOffsetForFlag (flag : Nat) : Nat :=
  if isFlaggedAs flag flagACK then windowSizePosition.End else sequenceNumberPosition.End

def createFlaggedSegment (sequenceNumber flags : Nat) (data : List Nat) : Option segment :=
  let dataOffset := getDataOffsetForFlag flags
  let buffer := make (dataOffset + data.length)
  (setDataOffset buffer (dataOffset % 256)).bind fun buffer =>
  (setFlags buffer flags).bind fun buffer =>
  (setSequenceNumber buffer sequenceNumber).bind fun buffer =>
  (buffer.sliceFrom dataOffset).bind fun dst =>
    createSegment (buffer.copyInto dst data)

def createAckSegment (lastInOrder sequenceNumber windowSize : Nat) : Option segment :=
  (createFlaggedSegment lastInOrder flagACK (uint32ToBytes sequenceNumber)).bind fun seg =>
    seg.setWindowSize windowSize

/-! ## Ordered segment collections -/

/-- The `range` loop of `insertSegmentInOrder`, at index `i` with `todo = segments[i:]`.
The insertion `append(segments, nil); copy(segments[i+1:], segments[i:]); segments[i] = insert`
yields `segments[:i]`, `insert`, `segments[i:]`. The two `if`s call the getters again; the calls
are pure, so each value is read once here. -/
def insertSegmentInOrder.loop (segments : List segment) (insert : segment) :
    Nat → List segment → Option (List segment)
  | _, [] => some (segments ++ [insert])
  | i, seg :: todo =>
    insert.getSequenceNumber.bind fun a =>
    seg.getSequenceNumber.bind fun b =>
      if a < b then some (segments.take i ++ insert :: segments.drop i)
      else if a = b then some segments
      else insertSegmentInOrder.loop segments insert (i + 1) todo

def insertSegmentInOrder (segments : List segment) (insert : segment) :
    Option (List segment) :=
  insertSegmentInOrder.loop segments insert 0 segments

/-- The `range` loop of `removeSegment`, at index `i` with `todo = segments[i:]`. The result
pairs the returned pointer (`none` is `nil`) with the returned slice,
`append(segments[:i], segments[i+1:]...)`. -/
def removeSegment.loop (segments : List segment) (sequenceNumber : Nat) :
    Nat → List segment → Option (Option segment × List segment)
  | _, [] => some (none, segments)
  | i, seg :: todo =>
    seg.getSequenceNumber.bind fun n =>
      if n = sequenceNumber then some (some seg, segments.take i ++ segments.drop (i + 1))
      else removeSegment.loop segments sequenceNumber (i + 1) todo

def removeSegment (segments : List segment) (sequenceNumber : Nat) :
    Option (Option segment × List segment) :=
  removeSegment.loop segments sequenceNumber 0 segments

/-- The `for i := 0; i < len(segments); i++` loop of `removeAllSegmentsWhere`, at the loop
test with index `i`. After a removal the body's `i--` and the loop's `i++` leave `i` as it
is. -/
def removeAllSegmentsWhere.loop (condition : segment → Bool) :
    List segment → List segment → Nat → List segment × List segment
  | segments, removed, i =>
    if h : i < segments.length then
      let seg := segments[i]
      if condition seg then
        removeAllSegmentsWhere.loop condition (segments.take i ++ segments.drop (i + 1))
          (removed ++ [seg]) i
      else removeAllSegmentsWhere.loop condition segments removed (i + 1)
    else (removed, segments)
termination_by segments _ i => segments.length - i
decreasing_by
  · simp only [List.length_append, List.length_take, List.length_drop]; omega
  · omega

/-- Returns `(removed, orig)`. -/
def removeAllSegmentsWhere (segments : List segment) (condition : segment → Bool) :
    List segment × List segment :=
  removeAllSegmentsWhere.loop condition segments [] 0

/-- Returns `segments[0], segments[1:]`; the index expression panics on the empty slice. -/
def popSegment : List segment → Option (segment × List segment)
  | [] => none
  | seg :: rest => some (seg, rest)

/-! ## Specification vocabulary -/

/-- The sequence number of a segment that has one (`0` stands in when the getter panics). -/
def seqOf (seg : segment) : Nat := seg.getSequenceNumber.getD 0

/-- A collection is strictly ascending by sequence number: every entry has a sequence number
(its `sequenceNumber` field is bound to four bytes, so the getter does not panic), and the
numbers increase strictly from each entry to every later one. -/
def StrictlyAscending (c : List segment) : Prop :=
  (∀ s ∈ c, s.getSequenceNumber.isSome) ∧ c.Pairwise (fun a b => seqOf a < seqOf b)

instance (c : List segment) : Decidable (StrictlyAscending c) := by
  unfold StrictlyAscending; infer_instance

/-- A finite sequence of `insertSegmentInOrder` calls: the segments of the second list are
inserted one by one, first to last, into the collection `c`. -/
def insertAll : List segment → List segment → Option (List segment)
  | c, [] => some c
  | c, seg :: rest => (insertSegmentInOrder c seg).bind fun c' => insertAll c' rest

/-- Insertion by key into a list, the list-level reading of `insertSegmentInOrder`: before the
first entry with a greater key, nothing at an entry with an equal key, at the end otherwise. -/
def insertKeyed {α : Type} (key : α → Nat) (x : α) : List α → List α
  | [] => [x]
  | y :: ys =>
    if key x < key y then x :: y :: ys
    else if key x = key y then y :: ys
    else y :: insertKeyed key x ys

/-- The segment `createFlaggedSegment seq 0 payload` returns: a data segment without flags
(`plainSegment_eq`). -/
def plainSegment (seq : Nat) (payload : List Nat) : segment :=
  { buffer := ⟨6 :: 0 :: (seq >>> 24 % 256) :: (seq >>> 16 % 256) :: (seq >>> 8 % 256) ::
      (seq % 256) :: payload, []⟩
    sequenceNumber := some ⟨2, 6⟩
    windowSize := none
    data := some ⟨6, 6 + payload.length⟩
    timestamp := 0
    retransmitThresh := 3 }

/-- The cutoff predicate "sequence number below `limit`", as a caller of
`removeAllSegmentsWhere` passes it. -/
def sequenceBelow (limit : Nat) (seg : segment) : Bool :=
  match seg.getSequenceNumber with
  | some n => decide (n < limit)
  | none => false

/-- The call whose model result is `r` panics: a Go function is modelled with the result
`none` exactly when one of its run-time bounds checks fails. -/
def Panics {α : Type} (r : Option α) : Prop := r.isNone

instance {α : Type} (r : Option α) : Decidable (Panics r) := by
  unfold Panics; infer_instance

/-- The header-offset invariant of the data model: the header offset (buffer byte 0) is at
least the minimum header size for the flags (buffer byte 1), 10 when the ACK bit is set and 6
otherwise. -/
def headerOffsetOk (seg : segment) : Prop :=
  match seg.getDataOffset, seg.getFlags with
  | some d, some f => (if f % 2 = 1 then 10 else 6) ≤ d
  | _, _ => False

instance (seg : segment) : Decidable (headerOffsetOk seg) := by
  unfold headerOffsetOk; split <;> infer_instance

/-! ## Encoding lemmas -/

theorem replicate_six_add (n : Nat) :
    List.replicate (6 + n) 0 = 0 :: 0 :: 0 :: 0 :: 0 :: 0 :: List.replicate n 0 := by
  rw [Nat.add_comm]; rfl

theorem replicate_ten_add (n : Nat) :
    List.replicate (10 + n) 0 =
      0 :: 0 :: 0 :: 0 :: 0 :: 0 :: 0 :: 0 :: 0 :: 0 :: List.replicate n 0 := by
  rw [Nat.add_comm]; rfl

theorem copyInto_append (data : List Nat) : ∀ (pre zs sp : List Nat) (hi : Nat),
    zs.length = data.length → hi = pre.length + zs.length →
    ByteSlice.copyInto ⟨pre ++ zs, sp⟩ ⟨pre.length, hi⟩ data = ⟨pre ++ data, sp⟩ := by
  induction data with
  | nil =>
    intro pre zs sp hi hz _
    have : zs = [] := List.length_eq_zero.mp hz
    simp [ByteSlice.copyInto, this]
  | cons x d ih =>
    intro pre zs sp hi hz hhi
    cases zs with
    | nil => simp at hz
    | cons z zs =>
      have h1 : pre.length < hi := by simp at hhi; omega
      have h2 : (ByteSlice.poke ⟨pre ++ z :: zs, sp⟩ pre.length x) = ⟨(pre ++ [x]) ++ zs, sp⟩ := by
        simp [ByteSlice.poke]
      simp only [ByteSlice.copyInto, h1, if_true, h2]
      have := ih (pre ++ [x]) zs sp hi (by simpa using hz) (by simp at hhi ⊢; omega)
      simpa using this


theorem shl_or_eq (a b i : Nat) (hb : b < 2 ^ i) : b ||| a <<< i = a * 2 ^ i + b := by
  rw [Nat.lor_comm, Nat.shiftLeft_eq, Nat.mul_comm a, Nat.mul_add_lt_is_or hb]

theorem be32_eq (b0 b1 b2 b3 : Nat) (h1 : b1 < 256) (h2 : b2 < 256) (h3 : b3 < 256) :
    b3 ||| b2 <<< 8 ||| b1 <<< 16 ||| b0 <<< 24 =
      b0 * 2 ^ 24 + b1 * 2 ^ 16 + b2 * 2 ^ 8 + b3 := by
  rw [shl_or_eq b2 b3 8 (by omega), shl_or_eq b1 _ 16 (by omega), shl_or_eq b0 _ 24 (by omega)]
  omega

theorem uint32_roundtrip (v : Nat) (hv : v < 2 ^ 32) :
    bigEndianUint32 (uint32ToBytes v) = some v := by
  simp only [uint32ToBytes, bigEndianUint32, Option.some.injEq]
  rw [be32_eq _ _ _ _ (Nat.mod_lt _ (by decide)) (Nat.mod_lt _ (by decide))
    (Nat.mod_lt _ (by decide))]
  simp only [Nat.shiftRight_eq_div_pow]
  omega


theorem copyInto_fill (pre data : List Nat) (lo hi : Nat) (hlo : lo = pre.length)
    (hhi : hi = pre.length + data.length) :
    ByteSlice.copyInto ⟨pre ++ List.replicate data.length 0, []⟩ ⟨lo, hi⟩ data =
      ⟨pre ++ data, []⟩ := by
  subst hlo
  exact copyInto_append data pre _ [] hi (by simp) (by simp [hhi])

theorem createFlaggedSegment_plain (seq flags : Nat) (data : List Nat)
    (h : isFlaggedAs flags flagACK = false) :
    createFlaggedSegment seq flags data = some
      { buffer := ⟨6 :: flags :: (seq >>> 24 % 256) :: (seq >>> 16 % 256) ::
          (seq >>> 8 % 256) :: (seq % 256) :: data, []⟩
        sequenceNumber := some ⟨2, 6⟩
        windowSize := none
        data := some ⟨6, 6 + data.length⟩
        timestamp := 0
        retransmitThresh := 3 } := by
  have hc := fun hi h => copyInto_fill
    [6, flags, seq >>> 24 % 256, seq >>> 16 % 256, seq >>> 8 % 256, seq % 256] data 6 hi rfl h
  simp only [List.length_cons, List.length_nil, List.cons_append, List.nil_append] at hc
  simp [createFlaggedSegment, getDataOffsetForFlag, h, make, replicate_six_add, setDataOffset,
    setFlags, setSequenceNumber, sequenceNumberPosition, dataOffsetPosition, flagPosition,
    ByteSlice.store, ByteSlice.len, ByteSlice.cap, ByteSlice.slice, ByteSlice.sliceFrom,
    bigEndianPutUint32, ByteSlice.poke]
  rw [hc _ (by omega)]
  simp [createSegment, ByteSlice.index, ByteSlice.slice, ByteSlice.sliceFrom, ByteSlice.len,
    ByteSlice.cap, h, sequenceNumberPosition, dataOffsetPosition, flagPosition,
    defaultRetransmitThresh]
  omega

theorem createFlaggedSegment_acked (seq flags : Nat) (data : List Nat)
    (h : isFlaggedAs flags flagACK = true) :
    createFlaggedSegment seq flags data = some
      { buffer := ⟨10 :: flags :: (seq >>> 24 % 256) :: (seq >>> 16 % 256) ::
          (seq >>> 8 % 256) :: (seq % 256) :: 0 :: 0 :: 0 :: 0 :: data, []⟩
        sequenceNumber := some ⟨2, 6⟩
        windowSize := some ⟨6, 10⟩
        data := some ⟨10, 10 + data.length⟩
        timestamp := 0
        retransmitThresh := 3 } := by
  have hc := fun hi h => copyInto_fill
    [10, flags, seq >>> 24 % 256, seq >>> 16 % 256, seq >>> 8 % 256, seq % 256, 0, 0, 0, 0]
    data 10 hi rfl h
  simp only [List.length_cons, List.length_nil, List.cons_append, List.nil_append] at hc
  simp [createFlaggedSegment, getDataOffsetForFlag, h, make, replicate_ten_add, setDataOffset,
    setFlags, setSequenceNumber, sequenceNumberPosition, dataOffsetPosition, flagPosition,
    windowSizePosition,
    ByteSlice.store, ByteSlice.len, ByteSlice.cap, ByteSlice.slice, ByteSlice.sliceFrom,
    bigEndianPutUint32, ByteSlice.poke]
  rw [hc _ (by omega)]
  simp [createSegment, ByteSlice.index, ByteSlice.slice, ByteSlice.sliceFrom, ByteSlice.len,
    ByteSlice.cap, h, sequenceNumberPosition, dataOffsetPosition, flagPosition,
    windowSizePosition, defaultRetransmitThresh]
  omega


theorem isFlaggedAs_ack_iff (flags : Nat) : isFlaggedAs flags flagACK = true ↔ flags % 2 = 1 := by
  simp [isFlaggedAs, flagACK, Nat.and_one_is_mod]

theorem createAckSegment_eq (lastInOrder sequenceNumber windowSize : Nat) :
    createAckSegment lastInOrder sequenceNumber windowSize = some
      { buffer := ⟨10 :: 1 :: (lastInOrder >>> 24 % 256) :: (lastInOrder >>> 16 % 256) ::
          (lastInOrder >>> 8 % 256) :: (lastInOrder % 256) ::
          (windowSize >>> 24 % 256) :: (windowSize >>> 16 % 256) ::
          (windowSize >>> 8 % 256) :: (windowSize % 256) :: uint32ToBytes sequenceNumber, []⟩
        sequenceNumber := some ⟨2, 6⟩
        windowSize := some ⟨6, 10⟩
        data := some ⟨10, 14⟩
        timestamp := 0
        retransmitThresh := 3 } := by
  rw [createAckSegment, createFlaggedSegment_acked _ _ _ (by decide)]
  simp [segment.setWindowSize, ByteSlice.slice, ByteSlice.cap, windowSizePosition,
    bigEndianPutUint32, ByteSlice.poke, uint32ToBytes, flagACK]

theorem createSegment_plain (flags s0 s1 s2 s3 : Nat) (data : List Nat)
    (h : isFlaggedAs flags flagACK = false) :
    createSegment ⟨6 :: flags :: s0 :: s1 :: s2 :: s3 :: data, []⟩ = some
      { buffer := ⟨6 :: flags :: s0 :: s1 :: s2 :: s3 :: data, []⟩
        sequenceNumber := some ⟨2, 6⟩
        windowSize := none
        data := some ⟨6, 6 + data.length⟩
        timestamp := 0
        retransmitThresh := 3 } := by
  simp [createSegment, ByteSlice.index, ByteSlice.slice, ByteSlice.sliceFrom,
    ByteSlice.len, ByteSlice.cap, h, sequenceNumberPosition, dataOffsetPosition,
    flagPosition, defaultRetransmitThresh]
  omega

theorem createSegment_acked (flags s0 s1 s2 s3 w0 w1 w2 w3 : Nat) (data : List Nat)
    (h : isFlaggedAs flags flagACK = true) :
    createSegment ⟨10 :: flags :: s0 :: s1 :: s2 :: s3 :: w0 :: w1 :: w2 :: w3 :: data, []⟩ =
      some
      { buffer := ⟨10 :: flags :: s0 :: s1 :: s2 :: s3 :: w0 :: w1 :: w2 :: w3 :: data, []⟩
        sequenceNumber := some ⟨2, 6⟩
        windowSize := some ⟨6, 10⟩
        data := some ⟨10, 10 + data.length⟩
        timestamp := 0
        retransmitThresh := 3 } := by
  simp [createSegment, ByteSlice.index, ByteSlice.slice, ByteSlice.sliceFrom,
    ByteSlice.len, ByteSlice.cap, h, sequenceNumberPosition, dataOffsetPosition,
    flagPosition, windowSizePosition, defaultRetransmitThresh]
  omega

/-! ## Claims on the codec -/

/-- C1 (data round trip). For every 32-bit sequence number, every flag byte and every payload,
`createFlaggedSegment` returns a segment, decoding its buffer with `createSegment` succeeds,
and the decoded segment has the same sequence number, the same flags and the same payload
bytes. -/
theorem data_round_trip (seq flags : Nat) (payload : List Nat) (hseq : seq < 2 ^ 32) :
    ∃ seg dec, createFlaggedSegment seq flags payload = some seg ∧
      createSegment seg.buffer = some dec ∧
      dec.getSequenceNumber = some seq ∧ dec.getFlags = some flags ∧
      dec.payload = payload := by
  have hrt := uint32_roundtrip seq hseq
  simp only [uint32ToBytes] at hrt
  cases h : isFlaggedAs flags flagACK
  · refine ⟨_, _, createFlaggedSegment_plain seq flags payload h,
      createSegment_plain _ _ _ _ _ _ h, ?_, ?_, ?_⟩
    · simpa [segment.getSequenceNumber, ByteSlice.view, ByteSlice.arr, bytesToUint32] using hrt
    · simp [segment.getFlags, ByteSlice.index, flagPosition]
    · simp [segment.payload, ByteSlice.view, ByteSlice.arr]
  · refine ⟨_, _, createFlaggedSegment_acked seq flags payload h,
      createSegment_acked _ _ _ _ _ _ _ _ _ _ h, ?_, ?_, ?_⟩
    · simpa [segment.getSequenceNumber, ByteSlice.view, ByteSlice.arr, bytesToUint32] using hrt
    · simp [segment.getFlags, ByteSlice.index, flagPosition]
    · simp [segment.payload, ByteSlice.view, ByteSlice.arr]

theorem data_round_trip_witness :
    (0x01020304 : Nat) < 2 ^ 32 ∧
    ∃ seg dec, createFlaggedSegment 0x01020304 2 [7, 8, 9] = some seg ∧
      createSegment seg.buffer = some dec ∧
      dec.getSequenceNumber = some 0x01020304 ∧ dec.getFlags = some 2 ∧
      dec.payload = [7, 8, 9] :=
  ⟨by decide, data_round_trip 0x01020304 2 [7, 8, 9] (by decide)⟩

/-- C2 (ACK round trip). For all 32-bit `s1`, `s2`, `w`, `createAckSegment s1 s2 w` returns a
segment; decoding its buffer yields sequence number `s1`, the ACK flag set, window size `w`,
and a payload of exactly 4 bytes that `bytesToUint32` decodes back to `s2`. -/
theorem ack_round_trip (s1 s2 w : Nat) (h1 : s1 < 2 ^ 32) (h2 : s2 < 2 ^ 32) (hw : w < 2 ^ 32) :
    ∃ seg dec, createAckSegment s1 s2 w = some seg ∧
      createSegment seg.buffer = some dec ∧
      dec.getSequenceNumber = some s1 ∧ dec.isFlaggedAs flagACK = some true ∧
      dec.getWindowSize = some w ∧ dec.payload.length = 4 ∧
      bytesToUint32 dec.payload = some s2 := by
  have e1 := uint32_roundtrip s1 h1
  have e2 := uint32_roundtrip s2 h2
  have ew := uint32_roundtrip w hw
  simp only [uint32ToBytes] at e1 ew
  refine ⟨_, _, createAckSegment_eq s1 s2 w,
    createSegment_acked _ _ _ _ _ _ _ _ _ _ (by decide), ?_, ?_, ?_, ?_, ?_⟩
  · simpa [segment.getSequenceNumber, ByteSlice.view, ByteSlice.arr, bytesToUint32] using e1
  · simp [segment.isFlaggedAs, segment.getFlags, ByteSlice.index, flagPosition]
    decide
  · simpa [segment.getWindowSize, ByteSlice.view, ByteSlice.arr, bytesToUint32] using ew
  · simp [segment.payload, ByteSlice.view, ByteSlice.arr, uint32ToBytes]
  · simpa [segment.payload, ByteSlice.view, ByteSlice.arr, bytesToUint32, uint32ToBytes]
      using e2

theorem ack_round_trip_witness :
    (7 : Nat) < 2 ^ 32 ∧ (0x0a0b0c0d : Nat) < 2 ^ 32 ∧ (65535 : Nat) < 2 ^ 32 ∧
    ∃ seg dec, createAckSegment 7 0x0a0b0c0d 65535 = some seg ∧
      createSegment seg.buffer = some dec ∧
      dec.getSequenceNumber = some 7 ∧ dec.isFlaggedAs flagACK = some true ∧
      dec.getWindowSize = some 65535 ∧ dec.payload.length = 4 ∧
      bytesToUint32 dec.payload = some 0x0a0b0c0d :=
  ⟨by decide, by decide, by decide,
    ack_round_trip 7 0x0a0b0c0d 65535 (by decide) (by decide) (by decide)⟩

/-- C3 (byte-exact data encoding). For every sequence number, flag byte and payload the buffer
built by `createFlaggedSegment` has length `h + len(payload)` and no spare capacity, where
`h = 10` if the ACK bit is set in `flags` and `h = 6` otherwise; its bytes are `h`, `flags`,
the four bytes of `seq` most significant first, four zero bytes when ACK is set, and then the
payload unchanged. -/
theorem createFlaggedSegment_bytes (seq flags : Nat) (payload : List Nat) :
    ∃ seg, createFlaggedSegment seq flags payload = some seg ∧
      seg.buffer.len = (if flags % 2 = 1 then 10 else 6) + payload.length ∧
      seg.buffer.cap = seg.buffer.len ∧
      seg.buffer.bytes =
        [if flags % 2 = 1 then 10 else 6, flags,
          seq / 2 ^ 24 % 256, seq / 2 ^ 16 % 256, seq / 2 ^ 8 % 256, seq % 256] ++
        (if flags % 2 = 1 then [0, 0, 0, 0] else []) ++ payload := by
  cases h : isFlaggedAs flags flagACK
  · have hf : ¬ flags % 2 = 1 := by rw [← isFlaggedAs_ack_iff]; simp [h]
    refine ⟨_, createFlaggedSegment_plain seq flags payload h, ?_, ?_, ?_⟩
    · simp [ByteSlice.len, hf]; omega
    · simp [ByteSlice.len, ByteSlice.cap]
    · simp [hf, Nat.shiftRight_eq_div_pow]
  · have hf : flags % 2 = 1 := (isFlaggedAs_ack_iff flags).mp h
    refine ⟨_, createFlaggedSegment_acked seq flags payload h, ?_, ?_, ?_⟩
    · simp [ByteSlice.len, hf]; omega
    · simp [ByteSlice.len, ByteSlice.cap]
    · simp [hf, Nat.shiftRight_eq_div_pow]

/-- C4 (header size by flag). For every sequence number and payload, `getHeaderSize` of the
segment built by `createFlaggedSegment` is 10 when the ACK bit is set in `flags` and 6 when it
is not; `getHeaderSize` of every segment built by `createAckSegment` is 10. -/
theorem header_size_by_flag (seq flags : Nat) (payload : List Nat) (s1 s2 w : Nat) :
    (∃ seg, createFlaggedSegment seq flags payload = some seg ∧
      seg.getHeaderSize = some (if flags % 2 = 1 then 10 else 6)) ∧
    (∃ ack, createAckSegment s1 s2 w = some ack ∧ ack.getHeaderSize = some 10) := by
  constructor
  · cases h : isFlaggedAs flags flagACK
    · have hf : ¬ flags % 2 = 1 := by rw [← isFlaggedAs_ack_iff]; simp [h]
      exact ⟨_, createFlaggedSegment_plain seq flags payload h, by
        simp [segment.getHeaderSize, segment.getDataOffset, ByteSlice.index,
          dataOffsetPosition, hf]⟩
    · have hf : flags % 2 = 1 := (isFlaggedAs_ack_iff flags).mp h
      exact ⟨_, createFlaggedSegment_acked seq flags payload h, by
        simp [segment.getHeaderSize, segment.getDataOffset, ByteSlice.index,
          dataOffsetPosition, hf]⟩
  · exact ⟨_, createAckSegment_eq s1 s2 w, by
      simp [segment.getHeaderSize, segment.getDataOffset, ByteSlice.index,
        dataOffsetPosition]⟩


/-! ## Collection lemmas -/

theorem mem_insertKeyed {α : Type} (key : α → Nat) (x : α) (l : List α) :
    ∀ y ∈ insertKeyed key x l, y = x ∨ y ∈ l := by
  induction l with
  | nil => intro y hy; simp [insertKeyed] at hy; exact Or.inl hy
  | cons z zs ih =>
    intro y hy
    simp only [insertKeyed] at hy
    split_ifs at hy with h1 h2
    · simp only [List.mem_cons] at hy ⊢; tauto
    · exact Or.inr hy
    · rcases List.mem_cons.mp hy with h | h
      · exact Or.inr (h ▸ List.mem_cons_self _ _)
      · rcases ih y h with h | h
        · exact Or.inl h
        · exact Or.inr (List.mem_cons_of_mem _ h)

theorem insertKeyed_pairwise {α : Type} (key : α → Nat) (x : α) (l : List α)
    (hl : l.Pairwise (fun a b => key a < key b)) :
    (insertKeyed key x l).Pairwise (fun a b => key a < key b) := by
  induction l with
  | nil => simp [insertKeyed]
  | cons z zs ih =>
    rw [List.pairwise_cons] at hl
    simp only [insertKeyed]
    split_ifs with h1 h2
    · refine List.Pairwise.cons ?_ (List.Pairwise.cons hl.1 hl.2)
      intro y hy
      rcases List.mem_cons.mp hy with h | h
      · exact h ▸ h1
      · exact lt_trans h1 (hl.1 y h)
    · exact List.Pairwise.cons hl.1 hl.2
    · refine List.Pairwise.cons ?_ (ih hl.2)
      intro y hy
      rcases mem_insertKeyed key x zs y hy with h | h
      · subst h; omega
      · exact hl.1 y h

theorem insertKeyed_perm {α : Type} (key : α → Nat) (x : α) (l : List α)
    (hl : ∀ y ∈ l, key y ≠ key x) : (insertKeyed key x l).Perm (x :: l) := by
  induction l with
  | nil => simp [insertKeyed]
  | cons z zs ih =>
    simp only [insertKeyed]
    split_ifs with h1 h2
    · exact List.Perm.refl _
    · exact absurd h2.symm (hl z (List.mem_cons_self _ _))
    · exact ((ih fun y hy => hl y (List.mem_cons_of_mem _ hy)).cons z).trans
        (List.Perm.swap x z zs)

theorem insertKeyed_of_mem {α : Type} (key : α → Nat) (x : α) (l : List α)
    (hl : l.Pairwise (fun a b => key a < key b)) (hx : ∃ y ∈ l, key y = key x) :
    insertKeyed key x l = l := by
  induction l with
  | nil => obtain ⟨y, hy, _⟩ := hx; simp at hy
  | cons z zs ih =>
    rw [List.pairwise_cons] at hl
    obtain ⟨y, hy, hk⟩ := hx
    simp only [insertKeyed]
    split_ifs with h1 h2
    · exfalso
      rcases List.mem_cons.mp hy with h | h
      · subst h; omega
      · have := hl.1 y h; omega
    · rfl
    · rcases List.mem_cons.mp hy with h | h
      · subst h; exact absurd hk.symm h2
      · rw [ih hl.2 ⟨y, h, hk⟩]

theorem getSequenceNumber_eq_seqOf (s : segment) (n : Nat)
    (h : s.getSequenceNumber = some n) : seqOf s = n := by
  simp [seqOf, h]

theorem strictlyAscending_iff (c : List segment) :
    StrictlyAscending c ↔
      (∀ s ∈ c, s.getSequenceNumber = some (seqOf s)) ∧
        c.Pairwise (fun a b => seqOf a < seqOf b) := by
  constructor
  · rintro ⟨hv, hp⟩
    refine ⟨fun s hs => ?_, hp⟩
    obtain ⟨n, hn⟩ := Option.isSome_iff_exists.mp (hv s hs)
    rw [hn, getSequenceNumber_eq_seqOf s n hn]
  · rintro ⟨hv, hp⟩
    exact ⟨fun s hs => by rw [hv s hs]; rfl, hp⟩

/-- The definition read through the list of sequence numbers: the getters of the entries
return `ns`, entry by entry, and `ns` increases strictly. -/
theorem strictlyAscending_iff_exists (c : List segment) :
    StrictlyAscending c ↔
      ∃ ns : List Nat, c.map segment.getSequenceNumber = ns.map some ∧
        ns.Pairwise (· < ·) := by
  rw [strictlyAscending_iff]
  constructor
  · rintro ⟨hvalid, hp⟩
    refine ⟨c.map seqOf, ?_, ?_⟩
    · rw [List.map_map]
      exact List.map_congr_left fun s hs => hvalid s hs
    · rw [List.pairwise_map]; exact hp
  · rintro ⟨ns, hmap, hns⟩
    have hkeys : c.map seqOf = ns := by
      have := congrArg (List.map fun o : Option Nat => o.getD 0) hmap
      simpa [List.map_map, Function.comp_def, seqOf] using this
    have hvalid : ∀ s ∈ c, s.getSequenceNumber = some (seqOf s) := by
      intro s hs
      have hm : s.getSequenceNumber ∈ ns.map some := hmap ▸ List.mem_map_of_mem _ hs
      obtain ⟨n, _, hn⟩ := List.mem_map.mp hm
      rw [← hn, getSequenceNumber_eq_seqOf s n hn.symm]
    refine ⟨hvalid, ?_⟩
    rw [← hkeys, List.pairwise_map] at hns
    exact hns

theorem insertSegmentInOrder_loop_eq (insert : segment) (a : Nat)
    (ha : insert.getSequenceNumber = some a) :
    ∀ (todo pre : List segment), (∀ s ∈ todo, s.getSequenceNumber = some (seqOf s)) →
      insertSegmentInOrder.loop (pre ++ todo) insert pre.length todo =
        some (pre ++ insertKeyed seqOf insert todo) := by
  have hk : seqOf insert = a := getSequenceNumber_eq_seqOf insert a ha
  intro todo
  induction todo with
  | nil => intro pre _; simp [insertSegmentInOrder.loop, insertKeyed]
  | cons seg todo ih =>
    intro pre hv
    have hseg := hv seg (List.mem_cons_self _ _)
    simp only [insertSegmentInOrder.loop, ha, hseg, Option.some_bind, insertKeyed, hk]
    split_ifs with h1 h2
    · simp
    · rfl
    · have := ih (pre ++ [seg]) fun s hs => hv s (List.mem_cons_of_mem _ hs)
      simpa using this

theorem insertSegmentInOrder_eq (c : List segment) (insert : segment) (a : Nat)
    (ha : insert.getSequenceNumber = some a)
    (hv : ∀ s ∈ c, s.getSequenceNumber = some (seqOf s)) :
    insertSegmentInOrder c insert = some (insertKeyed seqOf insert c) := by
  simpa [insertSegmentInOrder] using insertSegmentInOrder_loop_eq insert a ha c [] hv

theorem insertSegmentInOrder_ascending (c : List segment) (seg : segment) (n : Nat)
    (hseg : seg.getSequenceNumber = some n) (hc : StrictlyAscending c) :
    ∃ c', insertSegmentInOrder c seg = some c' ∧ StrictlyAscending c' := by
  rw [strictlyAscending_iff] at hc
  refine ⟨_, insertSegmentInOrder_eq c seg n hseg hc.1, ?_⟩
  rw [strictlyAscending_iff]
  refine ⟨?_, insertKeyed_pairwise seqOf seg c hc.2⟩
  intro s hs
  rcases mem_insertKeyed seqOf seg c s hs with h | h
  · rw [h, hseg, getSequenceNumber_eq_seqOf seg n hseg]
  · exact hc.1 s h

theorem insertAll_ascending (segs : List segment) :
    ∀ c : List segment, (∀ s ∈ segs, ∃ n, s.getSequenceNumber = some n) →
      StrictlyAscending c → ∃ r, insertAll c segs = some r ∧ StrictlyAscending r := by
  induction segs with
  | nil => intro c _ hc; exact ⟨c, rfl, hc⟩
  | cons s rest ih =>
    intro c hv hc
    obtain ⟨n, hn⟩ := hv s (List.mem_cons_self _ _)
    obtain ⟨c', hc', hasc⟩ := insertSegmentInOrder_ascending c s n hn hc
    obtain ⟨r, hr, hra⟩ := ih c' (fun x hx => hv x (List.mem_cons_of_mem _ hx)) hasc
    exact ⟨r, by simp [insertAll, hc', hr], hra⟩

theorem strictlyAscending_nil : StrictlyAscending [] := by decide


theorem insertAll_perm (segs : List segment) :
    ∀ c : List segment, (∀ s ∈ segs, ∃ n, s.getSequenceNumber = some n) →
      StrictlyAscending c → segs.Pairwise (fun a b => seqOf a ≠ seqOf b) →
      (∀ x ∈ c, ∀ s ∈ segs, seqOf x ≠ seqOf s) →
      ∃ r, insertAll c segs = some r ∧ r.Perm (c ++ segs) ∧ StrictlyAscending r := by
  induction segs with
  | nil => intro c _ hc _ _; exact ⟨c, rfl, by simp, hc⟩
  | cons s rest ih =>
    intro c hv hc hd hcd
    obtain ⟨n, hn⟩ := hv s (List.mem_cons_self _ _)
    rw [List.pairwise_cons] at hd
    have hvc := ((strictlyAscending_iff c).mp hc).1
    have hins := insertSegmentInOrder_eq c s n hn hvc
    obtain ⟨c', hc', hasc⟩ := insertSegmentInOrder_ascending c s n hn hc
    have hc'eq : c' = insertKeyed seqOf s c := by
      rw [hins] at hc'; exact (Option.some.inj hc').symm
    have hperm : c'.Perm (s :: c) := by
      rw [hc'eq]
      exact insertKeyed_perm seqOf s c fun y hy => hcd y hy s (List.mem_cons_self _ _)
    have hcd' : ∀ x ∈ c', ∀ t ∈ rest, seqOf x ≠ seqOf t := by
      intro x hx t ht
      rcases List.mem_cons.mp (hperm.subset hx) with h | h
      · rw [h]; exact hd.1 t ht
      · exact hcd x h t (List.mem_cons_of_mem _ ht)
    obtain ⟨r, hr, hrp, hra⟩ :=
      ih c' (fun x hx => hv x (List.mem_cons_of_mem _ hx)) hasc hd.2 hcd'
    refine ⟨r, by simp [insertAll, hc', hr], ?_, hra⟩
    refine hrp.trans ?_
    refine (List.Perm.append_right rest hperm).trans ?_
    simpa using (@List.perm_middle _ s c rest).symm

theorem strictlyAscending_unique (r r' : List segment) (hr : StrictlyAscending r)
    (hr' : StrictlyAscending r') (hp : r.Perm r') : r = r' := by
  have h1 := ((strictlyAscending_iff r).mp hr).2
  have h2 := ((strictlyAscending_iff r').mp hr').2
  haveI : IsAntisymm segment (fun a b => seqOf a < seqOf b) :=
    ⟨fun a b hab hba => absurd hab (lt_asymm hba)⟩
  exact List.eq_of_perm_of_sorted hp h1 h2

theorem distinct_seqOf (segs : List segment)
    (hv : ∀ s ∈ segs, s.getSequenceNumber.isSome)
    (hd : (segs.map segment.getSequenceNumber).Nodup) :
    segs.Pairwise (fun a b => seqOf a ≠ seqOf b) := by
  rw [List.Nodup, List.pairwise_map] at hd
  refine hd.imp_of_mem ?_
  intro a b ha hb hne heq
  obtain ⟨x, hx⟩ := Option.isSome_iff_exists.mp (hv a ha)
  obtain ⟨y, hy⟩ := Option.isSome_iff_exists.mp (hv b hb)
  rw [getSequenceNumber_eq_seqOf a x hx, getSequenceNumber_eq_seqOf b y hy] at heq
  exact hne (by rw [hx, hy, heq])

theorem removeSegment_loop_found (n : Nat) (s : segment) (post : List segment)
    (hs : s.getSequenceNumber = some n) :
    ∀ (mid pre : List segment),
      (∀ x ∈ mid, x.getSequenceNumber.isSome ∧ x.getSequenceNumber ≠ some n) →
      removeSegment.loop (pre ++ mid ++ s :: post) n pre.length (mid ++ s :: post) =
        some (some s, pre ++ mid ++ post) := by
  intro mid
  induction mid with
  | nil =>
    intro pre _
    simp [removeSegment.loop, hs]
  | cons x mid ih =>
    intro pre hx
    obtain ⟨hsome, hne⟩ := hx x (List.mem_cons_self _ _)
    obtain ⟨m, hm⟩ := Option.isSome_iff_exists.mp hsome
    have hmn : m ≠ n := fun h => hne (by rw [hm, h])
    have := ih (pre ++ [x]) fun y hy => hx y (List.mem_cons_of_mem _ hy)
    simp only [List.cons_append, removeSegment.loop, hm, Option.some_bind, hmn, if_false]
    simpa using this

theorem removeSegment_loop_absent (n : Nat) :
    ∀ (todo pre : List segment),
      (∀ x ∈ todo, x.getSequenceNumber.isSome ∧ x.getSequenceNumber ≠ some n) →
      removeSegment.loop (pre ++ todo) n pre.length todo = some (none, pre ++ todo) := by
  intro todo
  induction todo with
  | nil => intro pre _; simp [removeSegment.loop]
  | cons x todo ih =>
    intro pre hx
    obtain ⟨hsome, hne⟩ := hx x (List.mem_cons_self _ _)
    obtain ⟨m, hm⟩ := Option.isSome_iff_exists.mp hsome
    have hmn : m ≠ n := fun h => hne (by rw [hm, h])
    have := ih (pre ++ [x]) fun y hy => hx y (List.mem_cons_of_mem _ hy)
    simp only [removeSegment.loop, hm, Option.some_bind, hmn, if_false]
    simpa using this

theorem removeAllSegmentsWhere_loop_eq (condition : segment → Bool) :
    ∀ (todo kept removed : List segment),
      removeAllSegmentsWhere.loop condition (kept ++ todo) removed kept.length =
        (removed ++ todo.filter condition, kept ++ todo.filter fun s => !condition s) := by
  intro todo
  induction todo with
  | nil =>
    intro kept removed
    rw [removeAllSegmentsWhere.loop]
    simp
  | cons x todo ih =>
    intro kept removed
    rw [removeAllSegmentsWhere.loop]
    have hlt : kept.length < (kept ++ x :: todo).length := by simp
    have hget : (kept ++ x :: todo)[kept.length] = x := by
      rw [List.getElem_append_right (le_refl _)]
      simp
    simp only [hlt, dite_true, hget]
    cases hx : condition x
    · have := ih (kept ++ [x]) removed
      simp only [List.append_assoc, List.singleton_append, List.length_append,
        List.length_singleton] at this
      simp [this, hx]
    · have := ih kept (removed ++ [x])
      simp [this, hx]


theorem plainSegment_eq (seq : Nat) (payload : List Nat) :
    createFlaggedSegment seq 0 payload = some (plainSegment seq payload) :=
  createFlaggedSegment_plain seq 0 payload (by decide)

theorem bigEndianUint32_isSome (l : List Nat) (h : 4 ≤ l.length) :
    (bigEndianUint32 l).isSome := by
  rcases l with _ | ⟨a, _ | ⟨b, _ | ⟨c, _ | ⟨d, l⟩⟩⟩⟩ <;> simp [bigEndianUint32] at *

theorem createSegment_getSequenceNumber_isSome (buffer : ByteSlice) (seg : segment)
    (h : createSegment buffer = some seg) : seg.getSequenceNumber.isSome := by
  simp only [createSegment, Option.bind_eq_some] at h
  obtain ⟨d, _, f, _, sn, hsn, dv, _, h⟩ := h
  have hcap : sn = ⟨2, 6⟩ ∧ 6 ≤ buffer.cap := by
    simp only [ByteSlice.slice, sequenceNumberPosition] at hsn
    split_ifs at hsn with hc
    exact ⟨(Option.some.inj hsn).symm, hc.2⟩
  have hseg : seg.buffer = buffer ∧ seg.sequenceNumber = some sn := by
    split_ifs at h
    · simp only [Option.map_eq_some'] at h
      obtain ⟨w, _, h⟩ := h
      subst h; exact ⟨rfl, rfl⟩
    · cases h; exact ⟨rfl, rfl⟩
  simp only [segment.getSequenceNumber, bytesToUint32, hseg.1, hseg.2, hcap.1, ByteSlice.view]
  apply bigEndianUint32_isSome
  have := hcap.2
  simp only [ByteSlice.cap] at this
  simp only [List.length_take, List.length_drop, ByteSlice.arr, List.length_append]
  omega

theorem strictlyAscending_nodup (c : List segment) (hc : StrictlyAscending c) :
    (c.map segment.getSequenceNumber).Nodup := by
  rw [List.Nodup, List.pairwise_map]
  refine hc.2.imp ?_
  intro a b hlt heq
  simp only [seqOf, heq] at hlt
  exact Nat.lt_irrefl _ hlt

/-! ## Claims on ordered collections -/

/-- C5 (order invariant). If a collection is strictly ascending by sequence number, then for
every segment `seg` (with a bound sequence-number field) `insertSegmentInOrder` returns a
collection that is strictly ascending, hence without duplicate sequence numbers; and any
finite sequence of `insertSegmentInOrder` calls starting from the empty collection returns a
collection that is strictly ascending without duplicate sequence numbers. -/
theorem insert_order_invariant (c : List segment) (seg : segment) (segs : List segment)
    (hc : StrictlyAscending c) (hseg : seg.getSequenceNumber.isSome)
    (hsegs : ∀ s ∈ segs, s.getSequenceNumber.isSome) :
    (∃ c', insertSegmentInOrder c seg = some c' ∧ StrictlyAscending c' ∧
      (c'.map segment.getSequenceNumber).Nodup) ∧
    (∃ r, insertAll [] segs = some r ∧ StrictlyAscending r ∧
      (r.map segment.getSequenceNumber).Nodup) := by
  constructor
  · obtain ⟨n, hn⟩ := Option.isSome_iff_exists.mp hseg
    obtain ⟨c', h1, h2⟩ := insertSegmentInOrder_ascending c seg n hn hc
    exact ⟨c', h1, h2, strictlyAscending_nodup c' h2⟩
  · obtain ⟨r, h1, h2⟩ := insertAll_ascending segs []
      (fun s hs => Option.isSome_iff_exists.mp (hsegs s hs)) strictlyAscending_nil
    exact ⟨r, h1, h2, strictlyAscending_nodup r h2⟩

theorem insert_order_invariant_witness :
    StrictlyAscending [plainSegment 5 [], plainSegment 9 []] ∧
    (∃ c', insertSegmentInOrder [plainSegment 5 [], plainSegment 9 []] (plainSegment 7 [1]) =
        some c' ∧ StrictlyAscending c' ∧ (c'.map segment.getSequenceNumber).Nodup) ∧
    (∃ r, insertAll [] [plainSegment 9 [], plainSegment 5 [], plainSegment 7 [],
        plainSegment 5 [2]] = some r ∧ StrictlyAscending r ∧
      (r.map segment.getSequenceNumber).Nodup) :=
  ⟨by decide,
    insert_order_invariant [plainSegment 5 [], plainSegment 9 []] (plainSegment 7 [1])
      [plainSegment 9 [], plainSegment 5 [], plainSegment 7 [], plainSegment 5 [2]]
      (by decide) (by decide) (by decide)⟩

/-- C6 (insertion-order independence). For every finite list of segments with pairwise
distinct sequence numbers and every permutation of it, inserting the segments one by one
with `insertSegmentInOrder` into the empty collection returns the same collection: the
rearrangement of those segments that is strictly ascending by sequence number. -/
theorem insertion_order_independent (segs segs' : List segment)
    (hv : ∀ s ∈ segs, s.getSequenceNumber.isSome)
    (hd : (segs.map segment.getSequenceNumber).Nodup) (hp : segs'.Perm segs) :
    ∃ r, insertAll [] segs = some r ∧ insertAll [] segs' = some r ∧
      r.Perm segs ∧ StrictlyAscending r := by
  have hv' : ∀ s ∈ segs', s.getSequenceNumber.isSome := fun s hs => hv s (hp.subset hs)
  have hd' : (segs'.map segment.getSequenceNumber).Nodup :=
    (hp.map segment.getSequenceNumber).nodup_iff.mpr hd
  obtain ⟨r, hr, hrp, hra⟩ := insertAll_perm segs []
    (fun s hs => Option.isSome_iff_exists.mp (hv s hs)) strictlyAscending_nil
    (distinct_seqOf segs hv hd) (by simp)
  obtain ⟨r', hr', hrp', hra'⟩ := insertAll_perm segs' []
    (fun s hs => Option.isSome_iff_exists.mp (hv' s hs)) strictlyAscending_nil
    (distinct_seqOf segs' hv' hd') (by simp)
  simp only [List.nil_append] at hrp hrp'
  have : r' = r := strictlyAscending_unique r' r hra' hra ((hrp'.trans hp).trans hrp.symm)
  exact ⟨r, hr, this ▸ hr', hrp, hra⟩

theorem insertion_order_independent_witness :
    ([plainSegment 9 [], plainSegment 5 [], plainSegment 7 []].map
      segment.getSequenceNumber).Nodup ∧
    ∃ r, insertAll [] [plainSegment 9 [], plainSegment 5 [], plainSegment 7 []] = some r ∧
      insertAll [] [plainSegment 5 [], plainSegment 7 [], plainSegment 9 []] = some r ∧
      r.Perm [plainSegment 9 [], plainSegment 5 [], plainSegment 7 []] ∧
      StrictlyAscending r :=
  ⟨by decide,
    insertion_order_independent [plainSegment 9 [], plainSegment 5 [], plainSegment 7 []]
      [plainSegment 5 [], plainSegment 7 [], plainSegment 9 []] (by decide) (by decide)
      (by decide)⟩

/-- C7 (duplicate insert is a no-op). For every strictly ascending collection and every segment
`seg` whose sequence number equals that of an entry `old` of the collection,
`insertSegmentInOrder` returns the collection itself: the same entries at the same positions,
`old` kept and `seg` dropped. -/
theorem duplicate_insert_noop (c : List segment) (seg old : segment)
    (hc : StrictlyAscending c) (hold : old ∈ c)
    (hdup : seg.getSequenceNumber = old.getSequenceNumber) :
    insertSegmentInOrder c seg = some c := by
  rw [strictlyAscending_iff] at hc
  have ho := hc.1 old hold
  have hs : seg.getSequenceNumber = some (seqOf old) := hdup.trans ho
  rw [insertSegmentInOrder_eq c seg _ hs hc.1,
    insertKeyed_of_mem seqOf seg c hc.2
      ⟨old, hold, (getSequenceNumber_eq_seqOf seg _ hs).symm⟩]

theorem duplicate_insert_noop_witness :
    StrictlyAscending [plainSegment 5 [1], plainSegment 9 []] ∧
    plainSegment 5 [2] ≠ plainSegment 5 [1] ∧
    insertSegmentInOrder [plainSegment 5 [1], plainSegment 9 []] (plainSegment 5 [2]) =
      some [plainSegment 5 [1], plainSegment 9 []] :=
  ⟨by decide, by decide,
    duplicate_insert_noop [plainSegment 5 [1], plainSegment 9 []] (plainSegment 5 [2])
      (plainSegment 5 [1]) (by decide) (by decide) (by decide)⟩


/-- C8 (removeSegment erases the first match). For every collection (of segments with a bound
sequence-number field) and sequence number `n`: if the collection is `pre ++ s :: post` where
`s` is the first entry with sequence number `n`, `removeSegment` returns `s` together with
`pre ++ post`, the collection with exactly that entry deleted, one shorter and in the original
order; if no entry has sequence number `n`, it returns the absent result `nil` together with
the collection unchanged. -/
theorem removeSegment_first_match (c : List segment) (n : Nat)
    (hv : ∀ s ∈ c, s.getSequenceNumber.isSome) :
    (∀ pre s post, c = pre ++ s :: post → (∀ x ∈ pre, x.getSequenceNumber ≠ some n) →
      s.getSequenceNumber = some n →
        removeSegment c n = some (some s, pre ++ post) ∧
          (pre ++ post).length + 1 = c.length) ∧
    ((∀ x ∈ c, x.getSequenceNumber ≠ some n) → removeSegment c n = some (none, c)) := by
  constructor
  · intro pre s post hc hpre hs
    subst hc
    have := removeSegment_loop_found n s post hs pre []
      fun x hx => ⟨hv x (List.mem_append_left _ hx), hpre x hx⟩
    refine ⟨by simpa [removeSegment] using this, ?_⟩
    simp only [List.length_append, List.length_cons]
    omega
  · intro habs
    have := removeSegment_loop_absent n c [] fun x hx => ⟨hv x hx, habs x hx⟩
    simpa [removeSegment] using this

theorem removeSegment_first_match_witness :
    removeSegment [plainSegment 5 [], plainSegment 9 [1], plainSegment 7 [], plainSegment 9 [2]]
        9 = some (some (plainSegment 9 [1]),
          [plainSegment 5 [], plainSegment 7 [], plainSegment 9 [2]]) ∧
    removeSegment [plainSegment 5 [], plainSegment 9 [1], plainSegment 7 [], plainSegment 9 [2]]
        8 = some (none,
          [plainSegment 5 [], plainSegment 9 [1], plainSegment 7 [], plainSegment 9 [2]]) :=
  ⟨((removeSegment_first_match
      [plainSegment 5 [], plainSegment 9 [1], plainSegment 7 [], plainSegment 9 [2]] 9
      (by decide)).1 [plainSegment 5 []] (plainSegment 9 [1])
      [plainSegment 7 [], plainSegment 9 [2]] rfl (by decide) (by decide)).1,
    (removeSegment_first_match
      [plainSegment 5 [], plainSegment 9 [1], plainSegment 7 [], plainSegment 9 [2]] 8
      (by decide)).2 (by decide)⟩

/-- C9 (removeAllSegmentsWhere is a stable partition). For every collection and every predicate
the loop terminates (the function is total) and returns as `removed` the entries that satisfy
the predicate and as remaining collection the entries that do not, both in their original
relative order. For sequence numbers 1, 2, 3, 4 and the predicate "sequence number below 3",
`removed` holds the segments 1, 2 and the remaining collection the segments 3, 4. -/
theorem removeAllSegmentsWhere_partition (c : List segment) (condition : segment → Bool) :
    removeAllSegmentsWhere c condition =
        (c.filter condition, c.filter fun s => !condition s) ∧
    removeAllSegmentsWhere
        [plainSegment 1 [], plainSegment 2 [], plainSegment 3 [], plainSegment 4 []]
        (sequenceBelow 3) =
      ([plainSegment 1 [], plainSegment 2 []], [plainSegment 3 [], plainSegment 4 []]) := by
  have h : ∀ (l : List segment) (p : segment → Bool),
      removeAllSegmentsWhere l p = (l.filter p, l.filter fun s => !p s) := by
    intro l p
    simpa [removeAllSegmentsWhere] using removeAllSegmentsWhere_loop_eq p l [] []
  refine ⟨h c condition, ?_⟩
  rw [h]
  decide

/-- C10 (popSegment). On every non-empty collection `popSegment` returns the first entry and
the collection without it; when the collection is strictly ascending, the returned entry has a
sequence number below that of every remaining entry. On the empty collection it returns no
result (the index expression panics). On `[s1 (seq 5), s2 (seq 9)]` it returns `s1` and
`[s2]`. -/
theorem popSegment_first (seg : segment) (rest : List segment) :
    popSegment (seg :: rest) = some (seg, rest) ∧
    (StrictlyAscending (seg :: rest) →
      ∃ a, seg.getSequenceNumber = some a ∧
        ∀ x ∈ rest, ∃ b, x.getSequenceNumber = some b ∧ a < b) ∧
    popSegment [] = none ∧
    popSegment [plainSegment 5 [], plainSegment 9 []] =
      some (plainSegment 5 [], [plainSegment 9 []]) := by
  refine ⟨rfl, ?_, rfl, rfl⟩
  intro hasc
  rw [strictlyAscending_iff, List.pairwise_cons] at hasc
  refine ⟨seqOf seg, hasc.1 seg (List.mem_cons_self _ _), fun x hx => ?_⟩
  exact ⟨seqOf x, hasc.1 x (List.mem_cons_of_mem _ hx), hasc.2.1 x hx⟩

theorem popSegment_first_witness :
    StrictlyAscending [plainSegment 5 [], plainSegment 9 [], plainSegment 12 []] ∧
    ∃ a, (plainSegment 5 []).getSequenceNumber = some a ∧
      ∀ x ∈ [plainSegment 9 [], plainSegment 12 []],
        ∃ b, x.getSequenceNumber = some b ∧ a < b :=
  ⟨by decide,
    (popSegment_first (plainSegment 5 []) [plainSegment 9 [], plainSegment 12 []]).2.1
      (by decide)⟩

/-! ## Decoding lemmas -/

theorem createSegment_iff (buffer : ByteSlice) (seg : segment) :
    createSegment buffer = some seg ↔
      ∃ d f, buffer.bytes[0]? = some d ∧ buffer.bytes[1]? = some f ∧ 6 ≤ buffer.cap ∧
        d ≤ buffer.len ∧ (isFlaggedAs f flagACK = true → 10 ≤ buffer.cap) ∧
        seg =
          { buffer := buffer
            sequenceNumber := some ⟨2, 6⟩
            windowSize := if isFlaggedAs f flagACK = true then some ⟨6, 10⟩ else none
            data := some ⟨d, buffer.len⟩
            timestamp := 0
            retransmitThresh := 3 } := by
  simp only [createSegment, Option.bind_eq_some, ByteSlice.index, ByteSlice.slice,
    ByteSlice.sliceFrom, dataOffsetPosition, flagPosition, sequenceNumberPosition,
    windowSizePosition, defaultRetransmitThresh]
  constructor
  · rintro ⟨d, hd, f, hf, sn, hsn, dv, hdv, h⟩
    split_ifs at hsn with h6
    split_ifs at hdv with hle
    cases hsn; cases hdv
    refine ⟨d, f, hd, hf, h6.2, hle, ?_⟩
    cases hack : isFlaggedAs f flagACK
    · simp only [hack] at h
      cases h
      simp
    · simp only [hack, if_true, Option.map_eq_some'] at h
      obtain ⟨w, hw, h⟩ := h
      split_ifs at hw with h10
      cases hw
      exact ⟨fun _ => h10.2, h.symm⟩
  · rintro ⟨d, f, hd, hf, h6, hle, h10, rfl⟩
    refine ⟨d, hd, f, hf, ⟨2, 6⟩, by simp [h6], ⟨d, buffer.len⟩, by simp [hle], ?_⟩
    cases hack : isFlaggedAs f flagACK
    · simp
    · simp [h10 hack]

theorem createSegment_isSome_iff (d f : Nat) (rest spare : List Nat) :
    (createSegment ⟨d :: f :: rest, spare⟩).isSome ↔
      6 ≤ ByteSlice.cap ⟨d :: f :: rest, spare⟩ ∧ d ≤ ByteSlice.len ⟨d :: f :: rest, spare⟩ ∧
        (f % 2 = 1 → 10 ≤ ByteSlice.cap ⟨d :: f :: rest, spare⟩) := by
  rw [Option.isSome_iff_exists]
  simp only [createSegment_iff, ← isFlaggedAs_ack_iff]
  constructor
  · rintro ⟨seg, d', f', hd, hf, h6, hle, h10, _⟩
    simp only [List.getElem?_cons_zero, List.getElem?_cons_succ, Option.some.injEq] at hd hf
    subst hd hf
    exact ⟨h6, hle, h10⟩
  · rintro ⟨h6, hle, h10⟩
    exact ⟨_, d, f, by simp, by simp, h6, hle, h10, rfl⟩

theorem view_from (b : ByteSlice) (d : Nat) (h : d ≤ b.len) :
    b.view (some ⟨d, b.len⟩) = b.bytes.drop d := by
  simp only [ByteSlice.view, ByteSlice.arr, ByteSlice.len] at *
  rw [List.drop_append_of_le_length h]
  exact List.take_left' (by simp)

theorem createSegment_fields (buffer : ByteSlice) (seg : segment)
    (h : createSegment buffer = some seg) :
    ∃ d f, buffer.bytes[0]? = some d ∧ buffer.bytes[1]? = some f ∧ 6 ≤ buffer.cap ∧
      d ≤ buffer.len ∧ (isFlaggedAs f flagACK = true → 10 ≤ buffer.cap) ∧
      seg.buffer = buffer ∧ seg.sequenceNumber = some ⟨2, 6⟩ ∧
      seg.windowSize = (if isFlaggedAs f flagACK = true then some ⟨6, 10⟩ else none) ∧
      seg.data = some ⟨d, buffer.len⟩ ∧
      seg.getDataOffset = some d ∧ seg.getFlags = some f ∧
      seg.payload = buffer.bytes.drop d := by
  obtain ⟨d, f, hd, hf, h6, hle, h10, hseg⟩ := (createSegment_iff buffer seg).mp h
  subst hseg
  exact ⟨d, f, hd, hf, h6, hle, h10, rfl, rfl, rfl, rfl, hd, hf, view_from buffer d hle⟩

theorem arr_of_cap (buffer : ByteSlice) (d f : Nat) (hd : buffer.bytes[0]? = some d)
    (hf : buffer.bytes[1]? = some f) (h6 : 6 ≤ buffer.cap) :
    ∃ s0 s1 s2 s3 rest, buffer.arr = d :: f :: s0 :: s1 :: s2 :: s3 :: rest := by
  obtain ⟨bytes, spare⟩ := buffer
  simp only [ByteSlice.cap, ByteSlice.arr] at *
  rcases bytes with _ | ⟨a, _ | ⟨b, bytes⟩⟩
  · simp at hd
  · simp at hf
  · simp only [List.getElem?_cons_zero, List.getElem?_cons_succ, Option.some.injEq] at hd hf
    subst hd hf
    have hlen : 4 ≤ (bytes ++ spare).length := by
      simp only [List.length_append, List.length_cons] at h6 ⊢; omega
    rcases hl : bytes ++ spare with _ | ⟨s0, _ | ⟨s1, _ | ⟨s2, _ | ⟨s3, rest⟩⟩⟩⟩ <;>
      simp [hl] at hlen
    exact ⟨s0, s1, s2, s3, rest, by simp [hl]⟩

/-! ## Claims on decoding -/

/-- C12, as amended (decode on short buffers). For the empty buffer and for every buffer whose
length is smaller than the header size given by its own header-offset byte (byte 0),
`createSegment` does not return a segment: the call panics on a run-time bounds check. The
function has the single result `*segment`, so no decode error is handed to the caller. -/
theorem createSegment_short_panics (buffer : ByteSlice)
    (h : buffer.len = 0 ∨ ∃ d, buffer.index 0 = some d ∧ buffer.len < d) :
    Panics (createSegment buffer) := by
  simp only [Panics, Option.isNone_iff_eq_none]
  cases hc : createSegment buffer with
  | none => rfl
  | some seg =>
    exfalso
    obtain ⟨d, f, hd, hf, _, hle, _⟩ := (createSegment_iff buffer seg).mp hc
    rcases h with h | ⟨d', hd', hlt⟩
    · have : buffer.bytes = [] := List.length_eq_zero.mp h
      simp [this] at hd
    · simp only [ByteSlice.index] at hd'
      rw [hd] at hd'
      cases hd'
      omega

theorem createSegment_short_panics_witness :
    Panics (createSegment ⟨[], []⟩) ∧ Panics (createSegment ⟨[10, 1, 0, 0, 0, 7, 0, 0], []⟩) :=
  ⟨createSegment_short_panics ⟨[], []⟩ (Or.inl rfl),
    createSegment_short_panics ⟨[10, 1, 0, 0, 0, 7, 0, 0], []⟩
      (Or.inr ⟨10, by decide, by decide⟩)⟩

/-- C12, counterexample. On the six-byte buffer `[6, 0, 0, 0, 0, 7]` cut to its first three
bytes (length 3, header-offset byte 6) the call of `createSegment` panics, where the
specification has it hand a decode error to its caller instead of panicking; the same buffer
in full is decoded. -/
theorem createSegment_short_counterexample :
    Panics (createSegment ⟨[6, 0, 0], []⟩) ∧ ¬ Panics (createSegment ⟨[6, 0, 0, 0, 0, 7], []⟩) := by
  decide

/-- C13, counterexample. The ten-byte buffer `[6, 1, 0, 0, 0, 5, 0, 0, 0, 9]` has the ACK bit
set and the header-offset byte 6, below 10; `createSegment` returns a segment for it, with
window size 9 and the payload `[0, 0, 0, 9]` read from the same four bytes. -/
theorem createSegment_inconsistent_counterexample :
    ∃ seg, createSegment ⟨[6, 1, 0, 0, 0, 5, 0, 0, 0, 9], []⟩ = some seg ∧
      seg.getFlags = some 1 ∧ seg.getDataOffset = some 6 ∧ seg.getWindowSize = some 9 ∧
      seg.payload = [0, 0, 0, 9] :=
  ⟨{ buffer := ⟨[6, 1, 0, 0, 0, 5, 0, 0, 0, 9], []⟩
     sequenceNumber := some ⟨2, 6⟩
     windowSize := some ⟨6, 10⟩
     data := some ⟨6, 10⟩
     timestamp := 0
     retransmitThresh := 3 }, by decide, by decide⟩

/-- C13, as amended (no consistency check in decode). `createSegment` does not compare the
header-offset byte with the flags byte and reports no decode error. On a buffer of at least two
bytes, whatever its header-offset byte `d` and flags byte `f` (also when `d` is below the minimum
header size for `f`), it returns a segment exactly when the bounds checks pass: capacity at
least 6, `d` at most the length, and capacity at least 10 when the ACK bit of `f` is set;
otherwise the call panics. A returned segment has header offset `d`, flags `f` and as payload the
buffer bytes from index `d` on. -/
theorem createSegment_no_consistency_check (d f : Nat) (rest spare : List Nat) :
    ((createSegment ⟨d :: f :: rest, spare⟩).isSome ↔
      6 ≤ (d :: f :: rest).length + spare.length ∧ d ≤ (d :: f :: rest).length ∧
        (f % 2 = 1 → 10 ≤ (d :: f :: rest).length + spare.length)) ∧
    (¬ (createSegment ⟨d :: f :: rest, spare⟩).isSome →
      Panics (createSegment ⟨d :: f :: rest, spare⟩)) ∧
    (∀ seg, createSegment ⟨d :: f :: rest, spare⟩ = some seg →
      seg.getDataOffset = some d ∧ seg.getFlags = some f ∧
        seg.payload = (d :: f :: rest).drop d) := by
  refine ⟨createSegment_isSome_iff d f rest spare, ?_, ?_⟩
  · intro h
    simpa [Panics] using h
  · intro seg h
    obtain ⟨d', f', hd, hf, _, _, _, _, _, _, _, hgd, hgf, hp⟩ := createSegment_fields _ seg h
    simp only [List.getElem?_cons_zero, List.getElem?_cons_succ, Option.some.injEq] at hd hf
    subst hd hf
    exact ⟨hgd, hgf, hp⟩

/-- C17 (decode reads the fields at the table offsets). For every buffer on which
`createSegment` succeeds, the backing array starts with six bytes `d, f, s0, s1, s2, s3`;
`getDataOffset` and `getHeaderSize` are `d`, buffer byte 0; `getFlags` is `f`, buffer byte 1;
`getSequenceNumber` is the big-endian unsigned 32-bit value of bytes 2..5; and the payload is
the buffer with its first `d` bytes dropped, so `len(payload) + getHeaderSize = len(buffer)`. -/
theorem decode_reads_fields (buffer : ByteSlice) (seg : segment)
    (h : createSegment buffer = some seg) :
    ∃ d f s0 s1 s2 s3 rest, buffer.arr = d :: f :: s0 :: s1 :: s2 :: s3 :: rest ∧
      buffer.bytes[0]? = some d ∧ buffer.bytes[1]? = some f ∧
      seg.getDataOffset = some d ∧ seg.getHeaderSize = some d ∧ seg.getFlags = some f ∧
      seg.getSequenceNumber = some (s3 ||| s2 <<< 8 ||| s1 <<< 16 ||| s0 <<< 24) ∧
      (s1 < 256 → s2 < 256 → s3 < 256 →
        seg.getSequenceNumber = some (s0 * 2 ^ 24 + s1 * 2 ^ 16 + s2 * 2 ^ 8 + s3)) ∧
      seg.payload = buffer.bytes.drop d ∧ seg.payload.length + d = buffer.len := by
  obtain ⟨d, f, hd, hf, h6, hle, _, hb, hsq, _, _, hgd, hgf, hp⟩ :=
    createSegment_fields buffer seg h
  obtain ⟨s0, s1, s2, s3, rest, harr⟩ := arr_of_cap buffer d f hd hf h6
  have hsn : seg.getSequenceNumber = some (s3 ||| s2 <<< 8 ||| s1 <<< 16 ||| s0 <<< 24) := by
    simp [segment.getSequenceNumber, ByteSlice.view, hb, hsq, harr, bytesToUint32,
      bigEndianUint32]
  refine ⟨d, f, s0, s1, s2, s3, rest, harr, hd, hf, hgd, hgd, hgf, hsn, ?_, hp, ?_⟩
  · intro h1 h2 h3
    rw [hsn, be32_eq s0 s1 s2 s3 h1 h2 h3]
  · rw [hp, List.length_drop]
    simp only [ByteSlice.len] at hle ⊢
    omega

theorem decode_reads_fields_witness :
    createSegment (plainSegment 0x01020304 [7, 8, 9]).buffer =
        some (plainSegment 0x01020304 [7, 8, 9]) ∧
    (plainSegment 0x01020304 [7, 8, 9]).getHeaderSize = some 6 ∧
    (plainSegment 0x01020304 [7, 8, 9]).getSequenceNumber = some 0x01020304 ∧
    (plainSegment 0x01020304 [7, 8, 9]).payload = [7, 8, 9] := by
  obtain ⟨d, f, s0, s1, s2, s3, rest, harr, hd, hf, _, hh, _, _, hs, hp, _⟩ :=
    decode_reads_fields (plainSegment 0x01020304 [7, 8, 9]).buffer
      (plainSegment 0x01020304 [7, 8, 9]) (by decide)
  have hd6 : d = 6 := Option.some.inj (hd.symm.trans (by decide))
  subst hd6
  exact ⟨by decide, hh, by decide, hp.trans (by decide)⟩

/-! ## Claims on the segment fields -/

theorem createFlaggedSegment_decoded (seq flags : Nat) (data : List Nat) (seg : segment)
    (h : createFlaggedSegment seq flags data = some seg) :
    createSegment seg.buffer = some seg := by
  cases hack : isFlaggedAs flags flagACK
  · rw [createFlaggedSegment_plain seq flags data hack] at h
    cases h
    exact createSegment_plain _ _ _ _ _ _ hack
  · rw [createFlaggedSegment_acked seq flags data hack] at h
    cases h
    exact createSegment_acked _ _ _ _ _ _ _ _ _ _ hack

theorem createAckSegment_decoded (s1 s2 w : Nat) (seg : segment)
    (h : createAckSegment s1 s2 w = some seg) : createSegment seg.buffer = some seg := by
  rw [createAckSegment_eq] at h
  cases h
  exact createSegment_acked 1 _ _ _ _ _ _ _ _ _ (by decide)

theorem createSegment_bound (buffer : ByteSlice) (seg : segment)
    (h : createSegment buffer = some seg) :
    seg.sequenceNumber = some ⟨2, 6⟩ ∧ seg.getSequenceNumber.isSome ∧
      ∃ f, seg.getFlags = some f ∧
        (f % 2 = 1 → seg.windowSize = some ⟨6, 10⟩ ∧ seg.getWindowSize.isSome) ∧
        (f % 2 ≠ 1 → seg.windowSize = none ∧ seg.getWindowSize = none) := by
  obtain ⟨d, f, _, _, _, _, h10, hb, hsq, hw, _, _, hgf, _⟩ := createSegment_fields buffer seg h
  refine ⟨hsq, createSegment_getSequenceNumber_isSome buffer seg h, f, hgf, ?_, ?_⟩
  · intro hf
    have hack := (isFlaggedAs_ack_iff f).mpr hf
    rw [if_pos hack] at hw
    refine ⟨hw, ?_⟩
    simp only [segment.getWindowSize, bytesToUint32, hb, hw, ByteSlice.view]
    apply bigEndianUint32_isSome
    have := h10 hack
    simp only [ByteSlice.cap] at this
    simp only [List.length_take, List.length_drop, ByteSlice.arr, List.length_append]
    omega
  · intro hf
    have hack : ¬ isFlaggedAs f flagACK = true := fun hc => hf ((isFlaggedAs_ack_iff f).mp hc)
    rw [if_neg hack] at hw
    refine ⟨hw, ?_⟩
    simp [segment.getWindowSize, bytesToUint32, hw, ByteSlice.view, bigEndianUint32]

/-- C15 (window-size presence). For every segment returned by `createSegment` (on any buffer
it accepts), by `createFlaggedSegment` or by `createAckSegment`: the sequence-number field is
bound to buffer bytes 2..5 and `getSequenceNumber` is defined; and with `f` the flag byte, the
window-size field is bound to buffer bytes 6..9 and `getWindowSize` is defined when the ACK bit
of `f` is set, and the field is nil and `getWindowSize` panics when it is not. -/
theorem window_size_presence (seg : segment)
    (h : (∃ buffer, createSegment buffer = some seg) ∨
      (∃ seq flags data, createFlaggedSegment seq flags data = some seg) ∨
      (∃ s1 s2 w, createAckSegment s1 s2 w = some seg)) :
    seg.sequenceNumber = some ⟨2, 6⟩ ∧ seg.getSequenceNumber.isSome ∧
      ∃ f, seg.getFlags = some f ∧
        (f % 2 = 1 → seg.windowSize = some ⟨6, 10⟩ ∧ seg.getWindowSize.isSome) ∧
        (f % 2 ≠ 1 → seg.windowSize = none ∧ Panics seg.getWindowSize) := by
  have hdec : ∃ buffer, createSegment buffer = some seg := by
    rcases h with h | ⟨seq, flags, data, h⟩ | ⟨s1, s2, w, h⟩
    · exact h
    · exact ⟨_, createFlaggedSegment_decoded seq flags data seg h⟩
    · exact ⟨_, createAckSegment_decoded s1 s2 w seg h⟩
  obtain ⟨buffer, hb⟩ := hdec
  obtain ⟨h1, h2, f, hf, h3, h4⟩ := createSegment_bound buffer seg hb
  refine ⟨h1, h2, f, hf, h3, fun hn => ?_⟩
  obtain ⟨h5, h6⟩ := h4 hn
  exact ⟨h5, by simp [Panics, h6]⟩

theorem window_size_presence_witness :
    (∃ s1 s2 w, createAckSegment s1 s2 w = some
      { buffer := ⟨[10, 1, 0, 0, 0, 7, 0, 0, 255, 255, 0, 0, 0, 9], []⟩
        sequenceNumber := some ⟨2, 6⟩
        windowSize := some ⟨6, 10⟩
        data := some ⟨10, 14⟩
        timestamp := 0
        retransmitThresh := 3 }) ∧
    (plainSegment 5 [1]).sequenceNumber = some ⟨2, 6⟩ ∧
    (plainSegment 5 [1]).getSequenceNumber.isSome ∧
    ∃ f, (plainSegment 5 [1]).getFlags = some f ∧
      (f % 2 = 1 → (plainSegment 5 [1]).windowSize = some ⟨6, 10⟩ ∧
        (plainSegment 5 [1]).getWindowSize.isSome) ∧
      (f % 2 ≠ 1 → (plainSegment 5 [1]).windowSize = none ∧
        Panics (plainSegment 5 [1]).getWindowSize) :=
  ⟨⟨7, 9, 65535, by decide⟩,
    window_size_presence (plainSegment 5 [1]) (Or.inr (Or.inl ⟨5, 0, [1], by decide⟩))⟩

theorem setWindowSize_eq (b0 b1 b2 b3 b4 b5 b6 b7 b8 b9 : Nat) (rest spare : List Nat)
    (sn ws data : Option span) (ts rt w : Nat) :
    segment.setWindowSize
        { buffer := ⟨b0 :: b1 :: b2 :: b3 :: b4 :: b5 :: b6 :: b7 :: b8 :: b9 :: rest, spare⟩
          sequenceNumber := sn
          windowSize := ws
          data := data
          timestamp := ts
          retransmitThresh := rt } w = some
      { buffer := ⟨b0 :: b1 :: b2 :: b3 :: b4 :: b5 :: (w >>> 24 % 256) :: (w >>> 16 % 256) ::
          (w >>> 8 % 256) :: (w % 256) :: rest, spare⟩
        sequenceNumber := sn
        windowSize := some ⟨6, 10⟩
        data := data
        timestamp := ts
        retransmitThresh := rt } := by
  have hs : ByteSlice.slice
      ⟨b0 :: b1 :: b2 :: b3 :: b4 :: b5 :: b6 :: b7 :: b8 :: b9 :: rest, spare⟩ 6 10 =
        some ⟨6, 10⟩ := by
    simp only [ByteSlice.slice, ByteSlice.cap, List.length_cons]
    rw [if_pos]
    omega
  simp [segment.setWindowSize, hs, windowSizePosition, bigEndianPutUint32, ByteSlice.poke]

theorem bytes_of_len_ten (bytes : List Nat) (h : 10 ≤ bytes.length) :
    ∃ b0 b1 b2 b3 b4 b5 b6 b7 b8 b9 rest,
      bytes = b0 :: b1 :: b2 :: b3 :: b4 :: b5 :: b6 :: b7 :: b8 :: b9 :: rest := by
  rcases bytes with _ | ⟨b0, _ | ⟨b1, _ | ⟨b2, _ | ⟨b3, _ | ⟨b4, _ | ⟨b5, _ | ⟨b6, _ | ⟨b7,
    _ | ⟨b8, _ | ⟨b9, rest⟩⟩⟩⟩⟩⟩⟩⟩⟩⟩ <;> simp at h
  exact ⟨b0, b1, b2, b3, b4, b5, b6, b7, b8, b9, rest, rfl⟩

theorem view_drop_ten (b0 b1 b2 b3 b4 b5 b6 b7 b8 b9 : Nat) (rest spare : List Nat)
    (d hi : Nat) (hd : 10 ≤ d) :
    ByteSlice.view ⟨b0 :: b1 :: b2 :: b3 :: b4 :: b5 :: b6 :: b7 :: b8 :: b9 :: rest, spare⟩
        (some ⟨d, hi⟩) =
      ((rest ++ spare).drop (d - 10)).take (hi - d) := by
  obtain ⟨k, rfl⟩ : ∃ k, d = k + 10 := ⟨d - 10, by omega⟩
  simp [ByteSlice.view, ByteSlice.arr]

/-- C16 (window-size write-through). For every segment whose buffer has at least 10 bytes and
every 32-bit `w`, `setWindowSize w` returns a segment whose `getWindowSize` is `w`; buffer bytes
6..9 hold `w` in big-endian order and every other byte of the buffer is unchanged; header
offset, flags and the field bindings are unchanged, the sequence number (bound to bytes 2..5) is
unchanged, and for a segment whose header offset is at least 10, where its payload starts, the
payload is unchanged. -/
theorem setWindowSize_write_through (seg : segment) (w : Nat) (hlen : 10 ≤ seg.buffer.len)
    (hw : w < 2 ^ 32) :
    ∃ seg', seg.setWindowSize w = some seg' ∧ seg'.getWindowSize = some w ∧
      seg'.buffer.bytes = seg.buffer.bytes.take 6 ++
        [w / 2 ^ 24 % 256, w / 2 ^ 16 % 256, w / 2 ^ 8 % 256, w % 256] ++
        seg.buffer.bytes.drop 10 ∧
      seg'.buffer.spare = seg.buffer.spare ∧
      seg'.getDataOffset = seg.getDataOffset ∧ seg'.getHeaderSize = seg.getHeaderSize ∧
      seg'.getFlags = seg.getFlags ∧
      seg'.sequenceNumber = seg.sequenceNumber ∧ seg'.data = seg.data ∧
      (seg.sequenceNumber = some ⟨2, 6⟩ → seg'.getSequenceNumber = seg.getSequenceNumber) ∧
      (∀ d hi, seg.getDataOffset = some d → seg.data = some ⟨d, hi⟩ → 10 ≤ d →
        seg'.payload = seg.payload) := by
  obtain ⟨⟨bytes, spare⟩, sn, ws, data, ts, rt⟩ := seg
  obtain ⟨b0, b1, b2, b3, b4, b5, b6, b7, b8, b9, rest, rfl⟩ := bytes_of_len_ten bytes hlen
  have hrt := uint32_roundtrip w hw
  simp only [uint32ToBytes] at hrt
  refine ⟨_, setWindowSize_eq b0 b1 b2 b3 b4 b5 b6 b7 b8 b9 rest spare sn ws data ts rt w,
    ?_, ?_, rfl, rfl, rfl, rfl, rfl, rfl, ?_, ?_⟩
  · simpa [segment.getWindowSize, ByteSlice.view, ByteSlice.arr, bytesToUint32] using hrt
  · simp [Nat.shiftRight_eq_div_pow]
  · intro hsn
    simp only at hsn
    subst hsn
    simp [segment.getSequenceNumber, ByteSlice.view, ByteSlice.arr]
  · intro d hi _ hdata hd
    simp only at hdata
    subst hdata
    simp only [segment.payload, view_drop_ten _ _ _ _ _ _ _ _ _ _ _ _ d hi hd]

theorem setWindowSize_write_through_witness :
    ∃ seg', (plainSegment 5 [1, 2, 3, 4, 5]).setWindowSize 0x0a0b0c0d = some seg' ∧
      seg'.getWindowSize = some 0x0a0b0c0d ∧
      seg'.buffer.bytes = [6, 0, 0, 0, 0, 5, 0x0a, 0x0b, 0x0c, 0x0d, 5] := by
  obtain ⟨seg', h1, h2, h3, _⟩ :=
    setWindowSize_write_through (plainSegment 5 [1, 2, 3, 4, 5]) 0x0a0b0c0d (by decide)
      (by decide)
  exact ⟨seg', h1, h2, h3.trans (by decide)⟩

/-! ## Claims on the flag byte and the header offset -/

theorem setFlags_eq (seg : segment) (g f : Nat) (hf : seg.getFlags = some f) :
    seg.setFlags g =
      some { seg with buffer := ⟨seg.buffer.bytes.set 1 g, seg.buffer.spare⟩ } := by
  have hlen : 1 < seg.buffer.bytes.length := by
    simp only [segment.getFlags, ByteSlice.index, flagPosition] at hf
    exact (List.getElem?_eq_some_iff.mp hf).1
  simp [segment.setFlags, ByteSlice.store, ByteSlice.len, flagPosition, hlen]

theorem addFlag_eq (seg : segment) (g f : Nat) (hf : seg.getFlags = some f) :
    seg.addFlag g =
      some { seg with buffer := ⟨seg.buffer.bytes.set 1 (f ||| g), seg.buffer.spare⟩ } := by
  simp only [segment.addFlag, hf, Option.some_bind]
  exact setFlags_eq seg (f ||| g) f hf

theorem getFlags_set (seg : segment) (g f : Nat) (hf : seg.getFlags = some f) :
    segment.getFlags { seg with buffer := ⟨seg.buffer.bytes.set 1 g, seg.buffer.spare⟩ } =
      some g := by
  have hlen : 1 < seg.buffer.bytes.length := by
    simp only [segment.getFlags, ByteSlice.index, flagPosition] at hf
    exact (List.getElem?_eq_some_iff.mp hf).1
  simp [segment.getFlags, ByteSlice.index, flagPosition, hlen]

theorem getDataOffset_set (seg : segment) (g : Nat) :
    segment.getDataOffset { seg with buffer := ⟨seg.buffer.bytes.set 1 g, seg.buffer.spare⟩ } =
      seg.getDataOffset := by
  simp [segment.getDataOffset, ByteSlice.index, dataOffsetPosition]

theorem isFlaggedAs_or_rto (old : Nat) :
    isFlaggedAs (old ||| flagRTO) flagACK = isFlaggedAs old flagACK ∧
      isFlaggedAs (old ||| flagRTO) flagSYN = isFlaggedAs old flagSYN := by
  have h1 : (8 : Nat) &&& 1 = 0 := by decide
  have h2 : (8 : Nat) &&& 2 = 0 := by decide
  simp only [isFlaggedAs, flagRTO, flagACK, flagSYN, Nat.and_distrib_right, h1, h2,
    Nat.or_zero, and_self]

theorem poke_bytes_getElem (b : ByteSlice) (i v j : Nat) (h : j ≠ i) :
    (b.poke i v).bytes[j]? = b.bytes[j]? := by
  unfold ByteSlice.poke
  split_ifs
  · simp [List.getElem?_set_ne (Ne.symm h)]
  · rfl

theorem setWindowSize_header (seg seg' : segment) (w : Nat)
    (h : seg.setWindowSize w = some seg') :
    seg'.getDataOffset = seg.getDataOffset ∧ seg'.getFlags = seg.getFlags := by
  simp only [segment.setWindowSize, ByteSlice.slice, windowSizePosition, bigEndianPutUint32,
    Option.bind_eq_some, Option.map_eq_some'] at h
  obtain ⟨sp, hsp, b, hb, rfl⟩ := h
  split_ifs at hsp with hc
  cases hsp
  simp only [Nat.reduceAdd, le_refl, if_true, Option.some.injEq] at hb
  subst hb
  simp only [segment.getDataOffset, segment.getFlags, ByteSlice.index, dataOffsetPosition,
    flagPosition]
  constructor <;>
    rw [poke_bytes_getElem _ _ _ _ (by decide), poke_bytes_getElem _ _ _ _ (by decide),
      poke_bytes_getElem _ _ _ _ (by decide), poke_bytes_getElem _ _ _ _ (by decide)]

/-- C11 (flag bit independence and idempotence). For every segment with a flag byte `old`
(a buffer of at least two bytes) and every flag byte `f`, `addFlag f` returns the segment with
flag byte `old ||| f`: buffer byte 1 is replaced, every other byte of the backing array and
every other field is unchanged. Applying `addFlag f` again returns the same segment; and for
`f = flagRTO` the ACK and SYN bits of the flag byte are as they were. -/
theorem addFlag_sets_or (seg : segment) (old f : Nat) (hold : seg.getFlags = some old) :
    ∃ seg', seg.addFlag f = some seg' ∧ seg'.getFlags = some (old ||| f) ∧
      seg'.buffer.bytes = seg.buffer.bytes.set 1 (old ||| f) ∧
      seg'.buffer.spare = seg.buffer.spare ∧
      (∀ i, i ≠ 1 → seg'.buffer.arr[i]? = seg.buffer.arr[i]?) ∧
      seg'.sequenceNumber = seg.sequenceNumber ∧ seg'.windowSize = seg.windowSize ∧
      seg'.data = seg.data ∧ seg'.timestamp = seg.timestamp ∧
      seg'.retransmitThresh = seg.retransmitThresh ∧
      seg'.addFlag f = some seg' ∧
      (f = flagRTO → seg'.isFlaggedAs flagACK = seg.isFlaggedAs flagACK ∧
        seg'.isFlaggedAs flagSYN = seg.isFlaggedAs flagSYN) := by
  have hnew := getFlags_set seg (old ||| f) old hold
  refine ⟨_, addFlag_eq seg f old hold, hnew, rfl, rfl, ?_, rfl, rfl, rfl, rfl, rfl, ?_, ?_⟩
  · intro i hi
    simp only [ByteSlice.arr]
    by_cases hlt : i < seg.buffer.bytes.length
    · rw [List.getElem?_append_left (by simpa using hlt), List.getElem?_append_left hlt,
        List.getElem?_set_ne (Ne.symm hi)]
    · rw [List.getElem?_append_right (by simpa using hlt),
        List.getElem?_append_right (by omega), List.length_set]
  · rw [addFlag_eq _ f (old ||| f) hnew]
    simp [Nat.or_assoc]
  · intro hf
    subst hf
    simp only [segment.isFlaggedAs, hnew, hold, Option.map_some', Option.some.injEq]
    exact isFlaggedAs_or_rto old

theorem addFlag_sets_or_witness :
    ∃ seg', (plainSegment 5 [1]).addFlag flagRTO = some seg' ∧
      seg'.getFlags = some 8 ∧ seg'.buffer.bytes = [6, 8, 0, 0, 0, 5, 1] ∧
      seg'.addFlag flagRTO = some seg' := by
  obtain ⟨seg', h1, h2, h3, _, _, _, _, _, _, _, h4, _⟩ :=
    addFlag_sets_or (plainSegment 5 [1]) 0 flagRTO (by decide)
  exact ⟨seg', h1, h2.trans (by decide), h3.trans (by decide), h4⟩

theorem headerOffsetOk_iff (seg : segment) (d f : Nat) (hd : seg.getDataOffset = some d)
    (hf : seg.getFlags = some f) :
    headerOffsetOk seg ↔ (if f % 2 = 1 then 10 else 6) ≤ d := by
  simp [headerOffsetOk, hd, hf]

theorem headerOffsetOk_fields (seg : segment) (h : headerOffsetOk seg) :
    ∃ d f, seg.getDataOffset = some d ∧ seg.getFlags = some f ∧
      (if f % 2 = 1 then 10 else 6) ≤ d := by
  cases hd : seg.getDataOffset with
  | none => simp [headerOffsetOk, hd] at h
  | some d =>
    cases hf : seg.getFlags with
    | none => simp [headerOffsetOk, hd, hf] at h
    | some f => exact ⟨d, f, rfl, rfl, (headerOffsetOk_iff seg d f hd hf).mp h⟩

theorem setFlags_headerOffsetOk (seg : segment) (g d : Nat) (hok : headerOffsetOk seg)
    (hd : seg.getDataOffset = some d) (hg : g % 2 = 1 → 10 ≤ d) :
    ∃ seg', seg.setFlags g = some seg' ∧ headerOffsetOk seg' := by
  obtain ⟨d', f, hd', hf, hle⟩ := headerOffsetOk_fields seg hok
  rw [hd] at hd'; cases hd'
  refine ⟨_, setFlags_eq seg g f hf, ?_⟩
  rw [headerOffsetOk_iff _ d g ((getDataOffset_set seg g).trans hd) (getFlags_set seg g f hf)]
  split_ifs with h
  · exact hg h
  · split_ifs at hle <;> omega

/-- C14, as amended (header-offset invariant). Every segment produced by
`createFlaggedSegment` or `createAckSegment` satisfies "header offset ≥ minimum header size for
its flags" (≥ 10 if the ACK bit is set in the flag byte, ≥ 6 otherwise). `setWindowSize`
preserves the predicate for every argument whenever it returns. `setFlags g` and `addFlag g`
return and preserve it whenever the argument `g` does not have the ACK bit set or the header
offset is already at least 10. -/
theorem header_offset_invariant :
    (∀ seq flags data, ∃ seg, createFlaggedSegment seq flags data = some seg ∧
      headerOffsetOk seg) ∧
    (∀ s1 s2 w, ∃ seg, createAckSegment s1 s2 w = some seg ∧ headerOffsetOk seg) ∧
    (∀ seg w seg', headerOffsetOk seg → seg.setWindowSize w = some seg' →
      headerOffsetOk seg') ∧
    (∀ seg g d, headerOffsetOk seg → seg.getDataOffset = some d → (g % 2 = 1 → 10 ≤ d) →
      ∃ seg', seg.setFlags g = some seg' ∧ headerOffsetOk seg') ∧
    (∀ seg g d, headerOffsetOk seg → seg.getDataOffset = some d → (g % 2 = 1 → 10 ≤ d) →
      ∃ seg', seg.addFlag g = some seg' ∧ headerOffsetOk seg') := by
  refine ⟨?_, ?_, ?_, ?_, ?_⟩
  · intro seq flags data
    cases hack : isFlaggedAs flags flagACK
    · have hf : ¬ flags % 2 = 1 := by rw [← isFlaggedAs_ack_iff]; simp [hack]
      refine ⟨_, createFlaggedSegment_plain seq flags data hack, ?_⟩
      simp [headerOffsetOk, segment.getDataOffset, segment.getFlags, ByteSlice.index,
        dataOffsetPosition, flagPosition, hf]
    · have hf : flags % 2 = 1 := (isFlaggedAs_ack_iff flags).mp hack
      refine ⟨_, createFlaggedSegment_acked seq flags data hack, ?_⟩
      simp [headerOffsetOk, segment.getDataOffset, segment.getFlags, ByteSlice.index,
        dataOffsetPosition, flagPosition, hf]
  · intro s1 s2 w
    refine ⟨_, createAckSegment_eq s1 s2 w, ?_⟩
    simp [headerOffsetOk, segment.getDataOffset, segment.getFlags, ByteSlice.index,
      dataOffsetPosition, flagPosition]
  · intro seg w seg' hok hset
    obtain ⟨d, f, hd, hf, hle⟩ := headerOffsetOk_fields seg hok
    obtain ⟨h1, h2⟩ := setWindowSize_header seg seg' w hset
    rw [headerOffsetOk_iff seg' d f (h1.trans hd) (h2.trans hf)]
    exact hle
  · intro seg g d hok hd hg
    exact setFlags_headerOffsetOk seg g d hok hd hg
  · intro seg g d hok hd hg
    obtain ⟨d', f, hd', hf, hle⟩ := headerOffsetOk_fields seg hok
    rw [hd] at hd'; cases hd'
    simp only [segment.addFlag, hf, Option.some_bind]
    refine setFlags_headerOffsetOk seg (f ||| g) d hok hd ?_
    intro h
    rcases Nat.or_mod_two_eq_one.mp h with h | h
    · rw [if_pos h] at hle; exact hle
    · exact hg h

theorem header_offset_invariant_witness :
    headerOffsetOk (plainSegment 5 [1]) ∧
    ∃ seg', (plainSegment 5 [1]).addFlag flagRTO = some seg' ∧ headerOffsetOk seg' :=
  ⟨by decide,
    header_offset_invariant.2.2.2.2 (plainSegment 5 [1]) flagRTO 6 (by decide) (by decide)
      (by decide)⟩

/-- C14, counterexample. The data segment `createFlaggedSegment 5 0 []` has header offset 6
and no flags, so it satisfies the header-offset invariant; `addFlag flagACK` and
`setFlags flagACK` return it with the ACK bit set and the header offset still 6, below the 10
the invariant asks of a segment with the ACK bit. -/
theorem addFlag_breaks_header_offset :
    ∃ seg seg', createFlaggedSegment 5 0 [] = some seg ∧ headerOffsetOk seg ∧
      seg.addFlag flagACK = some seg' ∧ seg.setFlags flagACK = some seg' ∧
      seg'.getFlags = some 1 ∧ seg'.getDataOffset = some 6 ∧ ¬ headerOffsetOk seg' :=
  ⟨plainSegment 5 [], { plainSegment 5 [] with buffer := ⟨[6, 1, 0, 0, 0, 5], []⟩ },
    by decide, by decide, by decide, by decide, by decide, by decide, by decide⟩

/-! ## Claims on removal and on insertion followed by removal -/

theorem removeSegment_loop_eq (n : Nat) :
    ∀ (todo pre : List segment), (∀ x ∈ todo, x.getSequenceNumber.isSome) →
      removeSegment.loop (pre ++ todo) n pre.length todo =
        some (todo.find? (fun s => s.getSequenceNumber == some n),
          pre ++ todo.eraseP (fun s => s.getSequenceNumber == some n)) := by
  intro todo
  induction todo with
  | nil => intro pre _; simp [removeSegment.loop]
  | cons x todo ih =>
    intro pre hv
    obtain ⟨m, hm⟩ := Option.isSome_iff_exists.mp (hv x (List.mem_cons_self _ _))
    by_cases hmn : m = n
    · subst hmn
      simp [removeSegment.loop, hm]
    · have := ih (pre ++ [x]) fun y hy => hv y (List.mem_cons_of_mem _ hy)
      simp only [removeSegment.loop, hm, Option.some_bind, hmn, if_false]
      simpa [List.find?_cons, List.eraseP_cons, hm, hmn] using this

theorem removeSegment_eq (c : List segment) (n : Nat)
    (hv : ∀ x ∈ c, x.getSequenceNumber.isSome) :
    removeSegment c n =
      some (c.find? (fun s => s.getSequenceNumber == some n),
        c.eraseP (fun s => s.getSequenceNumber == some n)) := by
  simpa [removeSegment] using removeSegment_loop_eq n c [] hv

theorem strictlyAscending_sublist (l l' : List segment) (hs : l'.Sublist l)
    (h : StrictlyAscending l) : StrictlyAscending l' :=
  ⟨fun s hm => h.1 s (hs.subset hm), h.2.sublist hs⟩

theorem insertKeyed_find_erase (seg : segment) (p : segment → Bool) (hp : p seg = true) :
    ∀ c : List segment, (∀ x ∈ c, p x = false ∧ seqOf x ≠ seqOf seg) →
      (insertKeyed seqOf seg c).find? p = some seg ∧ (insertKeyed seqOf seg c).eraseP p = c := by
  intro c
  induction c with
  | nil => intro _; simp [insertKeyed, hp]
  | cons y ys ih =>
    intro h
    obtain ⟨hpy, hne⟩ := h y (List.mem_cons_self _ _)
    simp only [insertKeyed]
    split_ifs with h1 h2
    · simp [hp]
    · exact absurd h2.symm hne
    · obtain ⟨i1, i2⟩ := ih fun x hx => h x (List.mem_cons_of_mem _ hx)
      simp [List.find?_cons, List.eraseP_cons, hpy, i1, i2]

/-- C18 (removals keep the ordered-collection invariant). For every collection that is strictly
ascending by sequence number: `removeSegment` returns, for any sequence number, a collection
that is strictly ascending; both lists returned by `removeAllSegmentsWhere`, for any predicate,
are strictly ascending; and on a non-empty collection `popSegment` returns a strictly ascending
remainder. -/
theorem removals_keep_order (c : List segment) (n : Nat) (condition : segment → Bool)
    (hc : StrictlyAscending c) :
    (∃ r, removeSegment c n = some r ∧ StrictlyAscending r.2) ∧
    StrictlyAscending (removeAllSegmentsWhere c condition).1 ∧
    StrictlyAscending (removeAllSegmentsWhere c condition).2 ∧
    (c ≠ [] → ∃ seg rest, popSegment c = some (seg, rest) ∧ StrictlyAscending rest) := by
  have hall : removeAllSegmentsWhere c condition =
      (c.filter condition, c.filter fun s => !condition s) := by
    simpa [removeAllSegmentsWhere] using removeAllSegmentsWhere_loop_eq condition c [] []
  refine ⟨⟨_, removeSegment_eq c n hc.1, ?_⟩, ?_, ?_, ?_⟩
  · exact strictlyAscending_sublist c _ (List.eraseP_sublist c) hc
  · rw [hall]; exact strictlyAscending_sublist c _ (List.filter_sublist c) hc
  · rw [hall]; exact strictlyAscending_sublist c _ (List.filter_sublist c) hc
  · intro hne
    cases c with
    | nil => exact absurd rfl hne
    | cons seg rest =>
      exact ⟨seg, rest, rfl, strictlyAscending_sublist _ _ (List.sublist_cons_self seg rest) hc⟩

theorem removals_keep_order_witness :
    StrictlyAscending [plainSegment 5 [], plainSegment 7 [], plainSegment 9 []] ∧
    (∃ r, removeSegment [plainSegment 5 [], plainSegment 7 [], plainSegment 9 []] 7 = some r ∧
      StrictlyAscending r.2) :=
  ⟨by decide,
    (removals_keep_order [plainSegment 5 [], plainSegment 7 [], plainSegment 9 []] 7
      (sequenceBelow 8) (by decide)).1⟩

/-- C19 (insert then remove is the identity). For every strictly ascending collection `c` and
every segment `seg` whose sequence number `n` does not occur in `c`, `insertSegmentInOrder`
returns a collection of length `len(c) + 1` that contains `seg`, and `removeSegment` of that
collection and `n` returns exactly `seg` and `c`. -/
theorem insert_then_remove (c : List segment) (seg : segment) (n : Nat)
    (hc : StrictlyAscending c) (hn : seg.getSequenceNumber = some n)
    (habs : ∀ x ∈ c, x.getSequenceNumber ≠ some n) :
    ∃ c', insertSegmentInOrder c seg = some c' ∧ c'.length = c.length + 1 ∧ seg ∈ c' ∧
      removeSegment c' n = some (some seg, c) := by
  have hvc := ((strictlyAscending_iff c).mp hc).1
  have hk : seqOf seg = n := getSequenceNumber_eq_seqOf seg n hn
  have hne : ∀ x ∈ c, seqOf x ≠ seqOf seg := by
    intro x hx heq
    exact habs x hx (by rw [hvc x hx, heq, hk])
  have hperm := insertKeyed_perm seqOf seg c hne
  refine ⟨_, insertSegmentInOrder_eq c seg n hn hvc, ?_, ?_, ?_⟩
  · simpa using hperm.length_eq
  · exact hperm.symm.subset (List.mem_cons_self _ _)
  · have hv' : ∀ x ∈ insertKeyed seqOf seg c, x.getSequenceNumber.isSome := by
      intro x hx
      rcases mem_insertKeyed seqOf seg c x hx with h | h
      · rw [h, hn]; rfl
      · exact hc.1 x h
    rw [removeSegment_eq _ n hv']
    obtain ⟨h1, h2⟩ := insertKeyed_find_erase seg
      (fun s => s.getSequenceNumber == some n) (by simp [hn]) c
      (fun x hx => ⟨by simpa using habs x hx, hne x hx⟩)
    rw [h1, h2]

theorem insert_then_remove_witness :
    StrictlyAscending [plainSegment 5 [], plainSegment 9 []] ∧
    ∃ c', insertSegmentInOrder [plainSegment 5 [], plainSegment 9 []] (plainSegment 7 [1]) =
        some c' ∧ c'.length = 3 ∧ plainSegment 7 [1] ∈ c' ∧
      removeSegment c' 7 = some (some (plainSegment 7 [1]),
        [plainSegment 5 [], plainSegment 9 []]) :=
  ⟨by decide,
    insert_then_remove [plainSegment 5 [], plainSegment 9 []] (plainSegment 7 [1]) 7
      (by decide) (by decide) (by decide)⟩

/-- C20 (de-duplication depends on sortedness). The collection with sequence numbers `[5, 3]`
is not ascending and holds an entry with sequence number 3; inserting a segment with sequence
number 3 returns a collection one longer than the input, with sequence numbers `[3, 5, 3]`:
the rule "equal sequence number means no-op" does not hold for arbitrary input collections. -/
theorem dedup_needs_sorted :
    ∃ c seg r, ¬ StrictlyAscending c ∧
      (∃ old ∈ c, old.getSequenceNumber = seg.getSequenceNumber) ∧
      insertSegmentInOrder c seg = some r ∧ r.length = c.length + 1 ∧
      c.map segment.getSequenceNumber = [some 5, some 3] ∧
      seg.getSequenceNumber = some 3 ∧
      r.map segment.getSequenceNumber = [some 3, some 5, some 3] :=
  ⟨[plainSegment 5 [], plainSegment 3 []], plainSegment 3 [1],
    [plainSegment 3 [1], plainSegment 5 [], plainSegment 3 []],
    by decide, ⟨plainSegment 3 [], by decide, by decide⟩, by decide, by decide, by decide,
    by decide, by decide⟩

end atp
